import Mathlib

/-!
Shallow embedding of the cross-stitch conversion pipeline
(src/unnamed/part_000, i.e. the image utilities module, and
src/src/utils/colorUtils.js) together with proofs of the spec's claims.

Modelling conventions:
* JS numbers on the integer-valued paths are modelled as `Nat`/`Int`; the
  real-valued arithmetic (cell geometry, distances, error diffusion) is
  modelled over `ℚ` (exact rationals standing in for IEEE doubles).
* A palette entry (`DMC_COLORS` element) carries `{id, name, hex}`; the code
  only ever uses the hex string through `parseInt(hex.slice(..), 16)`, so the
  model stores the three parsed channels directly as `r`, `g`, `b`.
* `colorCounts` is a JS object keyed by color id; it is modelled as an
  association list whose key is the stored color's id, with list order
  standing for `Object.values` iteration order.  (For integer-like id
  strings a JS engine iterates them in ascending numeric order rather than
  insertion order; no claim below depends on which colors come first, so
  the model simply appends new keys at the end.)
* The trigonometric shape masks are modelled over `ℝ` (section at the end).
-/

namespace CrossStitch

/-- A palette entry: id plus the three RGB channels parsed from its hex
string (`parseInt(hex.slice(1,3),16)` etc. in the source). -/
structure DMC where
  id : String
  r : Nat
  g : Nat
  b : Nat
deriving DecidableEq, Repr

instance : Inhabited DMC := ⟨⟨"", 0, 0, 0⟩⟩

/-- A plain `{r, g, b}` color value as used by `colorUtils.js`. -/
structure RGB where
  r : Int
  g : Int
  b : Int
deriving DecidableEq, Repr

/-- The `{r,g,b}` triple of a palette entry. -/
def dmcRGB (d : DMC) : RGB := ⟨d.r, d.g, d.b⟩

/-- Weighted squared color distance, the quantity
`dr*dr*0.3 + dg*dg*0.59 + db*db*0.11` shared by `findClosestDMC`,
`colorDistance` and `limitColors`. -/
def wdistSq (c1 c2 : RGB) : ℚ :=
  let dr : ℚ := c1.r - c2.r
  let dg : ℚ := c1.g - c2.g
  let db : ℚ := c1.b - c2.b
  dr * dr * 0.3 + dg * dg * 0.59 + db * db * 0.11

/-- Embedding of `isSimilarColor` (colorUtils.js): the source compares
`Math.sqrt(wdistSq) < tolerance`; over exact rationals this is equivalent to
`0 < tolerance ∧ wdistSq < tolerance^2` (the square root is nonnegative, so a
nonpositive tolerance never matches). -/
def isSimilarColor (c1 c2 : RGB) (tolerance : ℚ) : Bool :=
  decide (0 < tolerance ∧ wdistSq c1 c2 < tolerance * tolerance)

/-- One iteration of the linear argmin scans (`findClosestDMC` and the
inner loop of `limitColors`): keep the first element of strictly smallest
distance.  `none` plays the role of the initial `minDistance = Infinity`. -/
def scanStep {α : Type} (dist : α → ℚ) (acc : α × Option ℚ) (e : α) : α × Option ℚ :=
  match acc.2 with
  | none => (e, some (dist e))
  | some m => if dist e < m then (e, some (dist e)) else acc

/-- Embedding of `findClosestDMC` (colorUtils.js): linear scan keeping the
first entry of strictly smallest weighted distance.  The initial
`closestColor = DMC_COLORS[0]` is `headD default` (on the empty palette the
source would yield `undefined`; the claims assume a non-empty palette). -/
def findClosestDMC (palette : List DMC) (r g b : Nat) : DMC :=
  (palette.foldl
    (scanStep (fun dmc => wdistSq (dmcRGB dmc) ⟨(r : Int), (g : Int), (b : Int)⟩))
    (palette.headD default, none)).1

/-- Math.round: round half toward positive infinity. -/
def jsRound (q : ℚ) : ℤ := ⌊q + 1 / 2⌋

/-- Rounding used when a float is stored into a `Uint8ClampedArray`:
round to nearest, ties to even (the argument is already clamped). -/
def roundHalfEven (q : ℚ) : ℤ :=
  if q - ⌊q⌋ < 1 / 2 then ⌊q⌋
  else if 1 / 2 < q - ⌊q⌋ then ⌊q⌋ + 1
  else if 2 ∣ ⌊q⌋ then ⌊q⌋ else ⌊q⌋ + 1

/-- Store `Math.max(0, Math.min(255, q))` into a `Uint8ClampedArray` cell. -/
def storeClamped (q : ℚ) : Nat := (roundHalfEven (max 0 (min 255 q))).toNat

/-- A decoded pixel buffer (`ImageData`): flat row-major RGBA bytes. -/
structure ImageData where
  data : List Nat
  width : Nat
  height : Nat
deriving DecidableEq, Repr

/-- One stitch `{x, y, color}`. -/
structure Stitch where
  x : Nat
  y : Nat
  color : DMC
deriving DecidableEq, Repr

/-- A pattern `{stitches, width, height, colorCounts}`; `colorCounts` is the
id-keyed usage object, modelled as an association list of
(palette entry, count) in insertion order. -/
structure Pattern where
  stitches : List Stitch
  width : Nat
  height : Nat
  colorCounts : List (DMC × Nat)
deriving DecidableEq, Repr

/-- The keys of a `colorCounts` object. -/
def ccKeys (cc : List (DMC × Nat)) : List String := cc.map (fun e => e.1.id)

/-- Embedding of `colorCounts[dmc.id] = colorCounts[dmc.id] || {...dmc, count: 0};
colorCounts[dmc.id].count++` : bump the entry for `dmc.id`, inserting it
with count 0 first when absent. -/
def bumpCount (cc : List (DMC × Nat)) (dmc : DMC) : List (DMC × Nat) :=
  if cc.any (fun e => e.1.id == dmc.id) then
    cc.map (fun e => if e.1.id == dmc.id then (e.1, e.2 + 1) else e)
  else
    cc ++ [(dmc, 1)]

/-- Rebuild a usage object from a stitch list with `bumpCount` (the loop at
the end of `applyShapeMask`, and the running accumulation in
`convertToPattern`). -/
def buildCounts (l : List Stitch) : List (DMC × Nat) :=
  l.foldl (fun cc s => bumpCount cc s.color) []

/-- Selectable dithering kernel. -/
inductive DitherAlg
  | floydSteinberg
  | atkinson
deriving DecidableEq, Repr

/-- The options object taken by `convertToPattern`. -/
structure Options where
  removeBackground : Bool
  backgroundColor : Option RGB
  tolerance : ℚ
  useDithering : Bool
  ditheringAlgorithm : DitherAlg
deriving DecidableEq, Repr

/-- Embedding of `distributeError`: add `error * factor` to the three color
channels of pixel (x, y) of the working buffer, clamping to [0, 255];
out-of-bounds targets are silently dropped.  The target coordinates are
`Int` because the kernels reach to `sampleX - 1`. -/
def distributeError (data : List Nat) (width height : Nat) (x y : Int)
    (errR errG errB : Int) (factor : ℚ) : List Nat :=
  if x < 0 ∨ (width : Int) ≤ x ∨ y < 0 ∨ (height : Int) ≤ y then data
  else
    let idx := ((y * width + x) * 4).toNat
    let d1 := data.set idx (storeClamped ((data.getD idx 0 : ℚ) + errR * factor))
    let d2 := d1.set (idx + 1) (storeClamped ((d1.getD (idx + 1) 0 : ℚ) + errG * factor))
    d2.set (idx + 2) (storeClamped ((d2.getD (idx + 2) 0 : ℚ) + errB * factor))

/-- The mutable state threaded through the conversion loop of
`convertToPattern`. -/
structure ConvState where
  workingData : List Nat
  stitches : List Stitch
  colorCounts : List (DMC × Nat)
  processed : Nat
  skipped : Nat
deriving DecidableEq, Repr

/-- Apply the selected dithering kernel rooted at the sampled pixel
(the `if (useDithering)` block of `convertToPattern`). -/
def applyDither (alg : DitherAlg) (wd : List Nat) (width height : Nat)
    (sx sy errR errG errB : Int) : List Nat :=
  match alg with
  | .floydSteinberg =>
    let w1 := distributeError wd width height (sx + 1) sy errR errG errB (7 / 16)
    let w2 := distributeError w1 width height (sx - 1) (sy + 1) errR errG errB (3 / 16)
    let w3 := distributeError w2 width height sx (sy + 1) errR errG errB (5 / 16)
    distributeError w3 width height (sx + 1) (sy + 1) errR errG errB (1 / 16)
  | .atkinson =>
    let w1 := distributeError wd width height (sx + 1) sy errR errG errB (1 / 8)
    let w2 := distributeError w1 width height (sx + 2) sy errR errG errB (1 / 8)
    let w3 := distributeError w2 width height (sx - 1) (sy + 1) errR errG errB (1 / 8)
    let w4 := distributeError w3 width height sx (sy + 1) errR errG errB (1 / 8)
    let w5 := distributeError w4 width height (sx + 1) (sy + 1) errR errG errB (1 / 8)
    distributeError w5 width height sx (sy + 2) errR errG errB (1 / 8)

/-- The body of the inner double loop of `convertToPattern` for one grid
cell `(y, x)`: sample the cell center from the working buffer, apply the
alpha gate and optional background skip, match the palette, record the
stitch and usage, and optionally diffuse the quantization error. -/
def stepCell (palette : List DMC) (img : ImageData) (opts : Options)
    (cellW cellH : ℚ) (st : ConvState) (cell : Nat × Nat) : ConvState :=
  let y := cell.1
  let x := cell.2
  let sampleX : Nat := (⌊(x : ℚ) * cellW + cellW / 2⌋).toNat
  let sampleY : Nat := (⌊(y : ℚ) * cellH + cellH / 2⌋).toNat
  let idx := (sampleY * img.width + sampleX) * 4
  let r := st.workingData.getD idx 0
  let g := st.workingData.getD (idx + 1) 0
  let b := st.workingData.getD (idx + 2) 0
  let a := st.workingData.getD (idx + 3) 0
  if 128 < a then
    let isBg :=
      match opts.removeBackground, opts.backgroundColor with
      | true, some bg => isSimilarColor ⟨(r : Int), (g : Int), (b : Int)⟩ bg opts.tolerance
      | _, _ => false
    if isBg then
      { st with processed := st.processed + 1, skipped := st.skipped + 1 }
    else
      let dmc := findClosestDMC palette r g b
      let wd :=
        if opts.useDithering then
          applyDither opts.ditheringAlgorithm st.workingData img.width img.height
            (sampleX : Int) (sampleY : Int)
            ((r : Int) - dmc.r) ((g : Int) - dmc.g) ((b : Int) - dmc.b)
        else st.workingData
      { workingData := wd
        stitches := st.stitches ++ [⟨x, y, dmc⟩]
        colorCounts := bumpCount st.colorCounts dmc
        processed := st.processed + 1
        skipped := st.skipped }
  else
    { st with processed := st.processed + 1 }

/-- Row-major cell list of the given rows. -/
def cellsOfRows (gridWidth : Nat) (ys : List Nat) : List (Nat × Nat) :=
  ys.flatMap (fun y => (List.range gridWidth).map (fun x => (y, x)))

/-- Process the rows `ys` of the grid in row-major order. -/
def processRows (palette : List DMC) (img : ImageData) (opts : Options)
    (gridWidth : Nat) (cellW cellH : ℚ) (st : ConvState) (ys : List Nat) : ConvState :=
  (cellsOfRows gridWidth ys).foldl (stepCell palette img opts cellW cellH) st

/-- Integer progress percentage `Math.round((processed / total) * 100)`
reported after each chunk (0 when `total = 0`, where the source reports
`NaN`; the claims only concern grids with at least one cell). -/
def pctOf (processed total : Nat) : Nat :=
  (jsRound ((processed : ℚ) / total * 100)).toNat

/-- Embedding of the recursive `processChunk` closure: handle 5 grid rows
starting at `startY`, report progress, recurse while rows remain.  Returns
the final state and the list of reported percentages. -/
def processChunk (palette : List DMC) (img : ImageData) (opts : Options)
    (gridWidth gridHeight : Nat) (cellW cellH : ℚ) (startY : Nat)
    (st : ConvState) : ConvState × List Nat :=
  let st2 := processRows palette img opts gridWidth cellW cellH st
    (List.range' startY (min (startY + 5) gridHeight - startY))
  if h : min (startY + 5) gridHeight < gridHeight then
    let rest := processChunk palette img opts gridWidth gridHeight cellW cellH
      (min (startY + 5) gridHeight) st2
    (rest.1, pctOf st2.processed (gridWidth * gridHeight) :: rest.2)
  else
    (st2, [pctOf st2.processed (gridWidth * gridHeight)])
termination_by gridHeight - startY
decreasing_by omega

/-- Derived grid height `Math.round(gridSize * (height / width))`.  The model
uses exact rational division, so `width = 0` yields 0 here whereas the
source's chunk loop would run forever on `Infinity`; theorems about
`convertToPattern` therefore assume `1 ≤ width` where it matters. -/
def gridHeightOf (img : ImageData) (gridSize : Nat) : Nat :=
  (jsRound ((gridSize : ℚ) * ((img.height : ℚ) / img.width))).toNat

/-- Full embedding of `convertToPattern`: the resolved pattern together with
the list of percentages passed to `onProgress`.  The working copy equals
`data` initially in both the dithering and non-dithering runs (the source
aliases `data` when not dithering and never writes through the alias). -/
def convertToPatternFull (palette : List DMC) (img : ImageData)
    (gridSize : Nat) (opts : Options) : Pattern × List Nat :=
  let gridWidth := gridSize
  let gridHeight := gridHeightOf img gridSize
  let cellW : ℚ := (img.width : ℚ) / gridWidth
  let cellH : ℚ := (img.height : ℚ) / gridHeight
  let res := processChunk palette img opts gridWidth gridHeight cellW cellH 0
    ⟨img.data, [], [], 0, 0⟩
  (⟨res.1.stitches, gridWidth, gridHeight, res.1.colorCounts⟩, res.2)

/-- The pattern resolved by `convertToPattern`. -/
def convertToPattern (palette : List DMC) (img : ImageData)
    (gridSize : Nat) (opts : Options) : Pattern :=
  (convertToPatternFull palette img gridSize opts).1

/-- The sequence of progress percentages reported during a
`convertToPattern` run. -/
def progressReports (palette : List DMC) (img : ImageData)
    (gridSize : Nat) (opts : Options) : List Nat :=
  (convertToPatternFull palette img gridSize opts).2

/-- Stable insertion of a usage entry into a list sorted by descending
count; together with `sortByCountDesc` this models the stable
`sort((a, b) => b.count - a.count)` of `limitColors`. -/
def insertDesc (e : DMC × Nat) : List (DMC × Nat) → List (DMC × Nat)
  | [] => [e]
  | f :: fs => if e.2 < f.2 then f :: insertDesc e fs else e :: f :: fs

/-- Stable sort of the usage entries by descending count. -/
def sortByCountDesc (l : List (DMC × Nat)) : List (DMC × Nat) :=
  l.foldr insertDesc []

/-- Embedding of `newColorCounts[id].count++`: increment the entry with the
given key (a no-op when the key is absent, which is unreachable in the
places the source uses it — there the source would throw). -/
def incrKey (cc : List (DMC × Nat)) (i : String) : List (DMC × Nat) :=
  cc.map (fun e => if e.1.id == i then (e.1, e.2 + 1) else e)

/-- First entry of `topColors` minimizing the weighted squared distance to
`rgb` (the inner scan of `limitColors`, with `minDistance = Infinity`
modelled as `none`). -/
def closestTop (topColors : List (DMC × Nat)) (rgb : RGB) : DMC × Nat :=
  (topColors.foldl (scanStep (fun e => wdistSq (dmcRGB e.1) rgb))
    (topColors.headD default, none)).1

/-- Remapping of one stitch in the else-branch of `limitColors`. -/
def limitRemap (topColors : List (DMC × Nat)) (s : Stitch) : Stitch :=
  if topColors.any (fun e => e.1.id == s.color.id) then s
  else { s with color := (closestTop topColors (dmcRGB s.color)).1 }

/-- Embedding of `limitColors`.  The source updates `newColorCounts` as a
side effect of the same `map` that remaps the stitches; since the remapping
of a stitch never depends on the running counts, the model splits this into
a `map` over the stitches and a fold over the remapped list. -/
def limitColors (p : Pattern) (maxColors : Int) : Pattern :=
  if maxColors ≤ 0 then p
  else
    let sorted := sortByCountDesc p.colorCounts
    if (sorted.length : Int) ≤ maxColors then p
    else
      let topColors := sorted.take maxColors.toNat
      let newStitches := p.stitches.map (limitRemap topColors)
      let cc0 := topColors.map (fun e => (e.1, 0))
      { p with
        stitches := newStitches
        colorCounts := newStitches.foldl (fun cc s => incrKey cc s.color.id) cc0 }

/-- One greedy cluster of `mergeColors`: the comparison anchor
`representative` is the `{r,g,b}` of the first (seed) color, `colors` the
member usage entries, `totalCount` their accumulated count. -/
structure ColorGroup where
  representative : RGB
  colors : List (DMC × Nat)
  totalCount : Nat
deriving DecidableEq, Repr

/-- First-fit insertion of a usage entry into the greedy cluster list of
`mergeColors`: join the first group whose seed color is within tolerance,
else append a fresh group seeded by this entry. -/
def addColorToGroups (tolerance : ℚ) (gs : List ColorGroup) (c : DMC × Nat) :
    List ColorGroup :=
  match gs with
  | [] => [⟨dmcRGB c.1, [c], c.2⟩]
  | g :: rest =>
    if isSimilarColor (dmcRGB c.1) g.representative tolerance then
      { g with colors := g.colors ++ [c], totalCount := g.totalCount + c.2 } :: rest
    else
      g :: addColorToGroups tolerance rest c

/-- Embedding of `group.colors.reduce((prev, curr) => curr.count > prev.count
? curr : prev)`: first member of maximal count. -/
def groupRep (g : ColorGroup) : DMC × Nat :=
  match g.colors with
  | [] => default
  | e :: es => es.foldl (fun prev curr => if prev.2 < curr.2 then curr else prev) e

/-- The greedy cluster list built by `mergeColors` over the distinct colors
present, in `colorCounts` iteration order. -/
def mergeGroups (p : Pattern) (tolerance : ℚ) : List ColorGroup :=
  p.colorCounts.foldl (addColorToGroups tolerance) []

/-- The id-to-representative mapping of `mergeColors`. -/
def mergeMapping (groups : List ColorGroup) : List (String × (DMC × Nat)) :=
  groups.flatMap (fun g => g.colors.map (fun c => (c.1.id, groupRep g)))

/-- Remapping of one stitch by `mergeColors`; a stitch whose color id has no
mapping entry is returned unchanged (there the source would throw; the
claims assume patterns whose stitch colors are `colorCounts` keys). -/
def mergeRemap (mapping : List (String × (DMC × Nat))) (s : Stitch) : Stitch :=
  match mapping.lookup s.color.id with
  | some rep => { s with color := rep.1 }
  | none => s

/-- Embedding of `mergeColors`.  As in `limitColors`, the source increments
`newColorCounts` inside the stitch-remapping `map`; the model splits the two
(the remap does not depend on the counts). -/
def mergeColors (p : Pattern) (mergeTolerance : ℚ) : Pattern :=
  if mergeTolerance ≤ 0 then p
  else
    if p.colorCounts.length ≤ 1 then p
    else
      let groups := mergeGroups p mergeTolerance
      let mapping := mergeMapping groups
      let newStitches := p.stitches.map (mergeRemap mapping)
      let cc0 := groups.map (fun g => ((groupRep g).1, 0))
      { p with
        stitches := newStitches
        colorCounts := newStitches.foldl (fun cc s => incrKey cc s.color.id) cc0 }

/-- Shape selector of `applyShapeMask`. -/
inductive Shape
  | rectangle
  | circle
  | oval
  | heart
  | diamond
  | star
deriving DecidableEq, Repr

/-- Math.atan2 over the reals.  (IEEE signed zeros collapse: the source's
`atan2(0, -0) = π` has no counterpart, and `atan2(0, 0) = 0` as in JS.) -/
noncomputable def jsAtan2 (y x : ℝ) : ℝ :=
  if 0 < x then Real.arctan (y / x)
  else if x < 0 then
    (if y < 0 then Real.arctan (y / x) - Real.pi else Real.arctan (y / x) + Real.pi)
  else
    if 0 < y then Real.pi / 2 else if y < 0 then -(Real.pi / 2) else 0

/-- The JS `%` operator (remainder with the dividend's sign, truncated
division), used by the star mask. -/
noncomputable def jsRem (a n : ℝ) : ℝ :=
  if 0 ≤ a / n then a - n * ⌊a / n⌋ else a - n * ⌈a / n⌉

/-- The per-stitch keep predicate of `applyShapeMask` for a grid of the given
width and height.  All shapes follow the source formulas over `ℝ`; in the
heart case the source computes `Math.log(Math.abs(t))`, which for `t = 0`
is `-Infinity`, making `heartR = Math.abs(sin(0) * cos(0) * -Infinity / 2.5)
= NaN`, and the comparison `r <= 0.8 + NaN` is false.  The real-valued model
states that single non-real case explicitly as the `t = 0` branch. -/
noncomputable def keepStitch (shape : Shape) (w h : Nat) (s : Stitch) : Prop :=
  let dx : ℝ := ((s.x : ℝ) - (w : ℝ) / 2) / ((w : ℝ) / 2)
  let dy : ℝ := ((s.y : ℝ) - (h : ℝ) / 2) / ((h : ℝ) / 2)
  match shape with
  | .rectangle => True
  | .circle => Real.sqrt (dx * dx + dy * dy) ≤ 1
  | .oval => Real.sqrt (dx * dx + dy * dy) ≤ 1
  | .heart =>
    let t := jsAtan2 dy dx
    if t = 0 then False
    else Real.sqrt (dx * dx + dy * dy) ≤
      0.8 + |Real.sin t * Real.cos t * Real.log |t| / 2.5|
  | .diamond => |dx| + |dy| ≤ 1
  | .star =>
    let angle := jsAtan2 dy dx
    let pointAngle := jsRem (angle + Real.pi) (2 * Real.pi / 5)
    Real.sqrt (dx * dx + dy * dy) ≤ 0.5 + 0.5 * Real.cos (5 * pointAngle)

open Classical in
/-- List filter for a (classically decidable) propositional predicate,
mirroring `stitches.filter(...)` over the real-valued shape predicates. -/
noncomputable def filterP {α : Type} (p : α → Prop) : List α → List α
  | [] => []
  | a :: l => if p a then a :: filterP p l else filterP p l

/-- Embedding of `applyShapeMask`: `rectangle` returns the pattern
unchanged; otherwise drop the stitches outside the shape and rebuild
`colorCounts` from the survivors. -/
noncomputable def applyShapeMask (p : Pattern) (shape : Shape) : Pattern :=
  match shape with
  | .rectangle => p
  | _ =>
    let filtered := filterP (keepStitch shape p.width p.height) p.stitches
    { p with stitches := filtered, colorCounts := buildCounts filtered }

/-- The usage object `cc` correctly describes the stitch list `l`: keys are
distinct (a JS object cannot hold duplicate keys), every stitch's color id
is a key, each stored count equals the number of stitches carrying that id,
and the counts sum to the number of stitches. -/
def CountsFor (cc : List (DMC × Nat)) (l : List Stitch) : Prop :=
  (ccKeys cc).Nodup ∧
  (∀ s ∈ l, s.color.id ∈ ccKeys cc) ∧
  (∀ e ∈ cc, e.2 = (l.filter (fun s => s.color.id == e.1.id)).length) ∧
  (cc.map (fun e => e.2)).sum = l.length

/-- The pattern invariant of the spec, specialized to a pattern's own
stitches and `colorCounts`. -/
def INV (p : Pattern) : Prop := CountsFor p.colorCounts p.stitches

instance : ∀ cc l, Decidable (CountsFor cc l) := fun cc l => by
  unfold CountsFor
  infer_instance

instance : DecidablePred INV := fun p => by
  unfold INV
  infer_instance

/-- The invariant of the argmin scans after the processed prefix `pre`:
either nothing was processed, or the accumulator holds the first strict
minimizer of `pre` together with its distance. -/
def ScanInv {α : Type} (dist : α → ℚ) (pre : List α) (acc : α × Option ℚ) : Prop :=
  match acc.2 with
  | none => pre = []
  | some m => m = dist acc.1 ∧ (∀ e ∈ pre, m ≤ dist e) ∧
      ∃ l1 l2, pre = l1 ++ acc.1 :: l2 ∧ ∀ e ∈ l1, m < dist e

/-- The member colors of a greedy cluster list, flattened. -/
def groupsColors (gs : List ColorGroup) : List (DMC × Nat) :=
  gs.flatMap (fun g => g.colors)

/-- The working buffer agrees with the original pixel data on every alpha
byte. -/
def AlphaSame (img : ImageData) (wd : List Nat) : Prop :=
  ∀ m : Nat, m % 4 = 3 → wd.getD m 0 = img.data.getD m 0

/-- The alpha byte of the pixel sampled for a grid cell, read from the
original buffer. -/
def cellAlpha (img : ImageData) (cellW cellH : ℚ) (cell : Nat × Nat) : Nat :=
  img.data.getD
    (((⌊(cell.1 : ℚ) * cellH + cellH / 2⌋).toNat * img.width
      + (⌊(cell.2 : ℚ) * cellW + cellW / 2⌋).toNat) * 4 + 3) 0

/-- Concrete palette entry: DMC 310 black. -/
def dBlack : DMC := ⟨"310", 0, 0, 0⟩

/-- Concrete palette entry: DMC 666 bright red. -/
def dRed : DMC := ⟨"666", 227, 29, 66⟩

/-- Two-entry concrete palette used by the witnesses. -/
def palW : List DMC := [dBlack, dRed]

/-- Fully opaque 2-by-2 bright red pixel buffer. -/
def imgW : ImageData :=
  ⟨[227, 29, 66, 255, 227, 29, 66, 255, 227, 29, 66, 255, 227, 29, 66, 255], 2, 2⟩

/-- Default-style options: no background removal, no dithering. -/
def optsW : Options := ⟨false, none, 30, false, DitherAlg.floydSteinberg⟩

/-- Small concrete pattern satisfying the count invariant. -/
def pW : Pattern :=
  ⟨[⟨0, 0, dBlack⟩, ⟨1, 0, dBlack⟩, ⟨0, 1, dRed⟩], 2, 2, [(dBlack, 2), (dRed, 1)]⟩

/-- Concrete background color for the C7 witness. -/
def bgW : RGB := ⟨255, 255, 255⟩

/-- Witness options with background removal enabled. -/
def optsOnW : Options := ⟨true, some bgW, 30, false, DitherAlg.floydSteinberg⟩

/-- Witness options with background removal disabled. -/
def optsOffW : Options := ⟨false, some bgW, 30, false, DitherAlg.floydSteinberg⟩

/-- Single-stitch heart-mask counterexample pattern: a 4-by-4 grid with one
stitch at (3, 2), i.e. on the positive horizontal axis at radius 1/2. -/
def pH : Pattern := ⟨[⟨3, 2, dBlack⟩], 4, 4, [(dBlack, 1)]⟩

/-- Scenario colors for the C5 witness: two close grays and one far red. -/
def dG1 : DMC := ⟨"g1", 10, 10, 10⟩

/-- Second witness color, within tolerance of the first. -/
def dG2 : DMC := ⟨"g2", 12, 10, 10⟩

/-- Third witness color, isolated from the first. -/
def dFar : DMC := ⟨"far", 200, 60, 60⟩

/-- Concrete three-color pattern for the C5 witness. -/
def pM : Pattern :=
  ⟨[⟨0, 0, dG1⟩, ⟨1, 0, dG1⟩, ⟨2, 0, dG1⟩, ⟨0, 1, dG2⟩, ⟨1, 1, dFar⟩, ⟨2, 1, dFar⟩],
    3, 2, [(dG1, 3), (dG2, 1), (dFar, 2)]⟩

theorem sum_map_add {α : Type} (l : List α) (f g : α → Nat) :
    (l.map (fun x => f x + g x)).sum = (l.map f).sum + (l.map g).sum := by
  induction l with
  | nil => simp
  | cons a l ih => simp [ih]; omega

theorem sum_ite_key (l : List String) (a : String) :
    (l.map (fun k => if k = a then (1 : Nat) else 0)).sum = l.count a := by
  induction l with
  | nil => simp
  | cons b l ih =>
    simp only [List.map_cons, List.sum_cons, List.count_cons, ih]
    by_cases h : b = a <;> simp [h] <;> omega

theorem mem_any_key (cc : List (DMC × Nat)) (i : String) :
    cc.any (fun e => e.1.id == i) = true ↔ i ∈ ccKeys cc := by
  rw [List.any_eq_true]
  constructor
  · rintro ⟨e, he, hei⟩
    rw [beq_iff_eq] at hei
    exact hei ▸ List.mem_map.mpr ⟨e, he, rfl⟩
  · intro hk
    obtain ⟨e, he, hei⟩ := List.mem_map.mp hk
    exact ⟨e, he, by rw [beq_iff_eq]; exact hei⟩

theorem ccKeys_map_snd (cc : List (DMC × Nat)) (f : DMC × Nat → Nat) :
    ccKeys (cc.map (fun e => (e.1, f e))) = ccKeys cc := by
  simp [ccKeys, List.map_map]

theorem filter_singleton_key (s : Stitch) (d : DMC) (hs : s.color = d) (i : String) :
    (List.filter (fun t => t.color.id == i) [s]).length = if i = d.id then 1 else 0 := by
  rw [List.filter_singleton]
  by_cases hi : i = d.id
  · subst hi
    have ht : (s.color.id == d.id) = true := by simp [hs]
    simp [ht]
  · have hf : (s.color.id == i) = false := by
      rw [beq_eq_false_iff_ne, hs]
      exact fun hh => hi (Eq.symm hh)
    simp [hf, hi]

/-- Appending a stitch of color `d` and bumping the usage entry for `d`
together preserve `CountsFor`. -/
theorem countsFor_bump {cc : List (DMC × Nat)} {l : List Stitch} {d : DMC}
    (s : Stitch) (hs : s.color = d) (h : CountsFor cc l) :
    CountsFor (bumpCount cc d) (l ++ [s]) := by
  obtain ⟨hnd, hcov, hcnt, hsum⟩ := h
  unfold bumpCount
  by_cases hmem : cc.any (fun e => e.1.id == d.id) = true
  · have hkey : d.id ∈ ccKeys cc := (mem_any_key cc d.id).mp hmem
    rw [if_pos hmem]
    have hform : (cc.map fun e => if e.1.id == d.id then (e.1, e.2 + 1) else e)
        = cc.map (fun e => (e.1, e.2 + if e.1.id = d.id then 1 else 0)) := by
      apply List.map_congr_left
      intro e _
      by_cases he : e.1.id = d.id <;> simp [he]
    rw [hform]
    refine ⟨?_, ?_, ?_, ?_⟩
    · rw [ccKeys_map_snd]
      exact hnd
    · intro t ht
      rw [ccKeys_map_snd]
      rcases List.mem_append.mp ht with h1 | h2
      · exact hcov t h1
      · simp only [List.mem_singleton] at h2
        subst h2
        rw [hs]
        exact hkey
    · intro e' he'
      obtain ⟨e, he, hee⟩ := List.mem_map.mp he'
      subst hee
      simp only [List.filter_append, List.length_append,
        filter_singleton_key s d hs, ← hcnt e he]
    · rw [List.map_map]
      have hcomp : ((fun e : DMC × Nat => e.2) ∘
          fun e : DMC × Nat => (e.1, e.2 + if e.1.id = d.id then 1 else 0))
          = fun e : DMC × Nat => e.2 + if e.1.id = d.id then 1 else 0 := rfl
      rw [hcomp, sum_map_add, hsum]
      have hones : (cc.map fun e => if e.1.id = d.id then (1 : Nat) else 0).sum
          = (ccKeys cc).count d.id := by
        rw [← sum_ite_key (ccKeys cc) d.id, ccKeys, List.map_map]
        rfl
      have hone : (ccKeys cc).count d.id = 1 := List.count_eq_one_of_mem hnd hkey
      simp [hones, hone]
  · have hkey : d.id ∉ ccKeys cc := fun hk => hmem ((mem_any_key cc d.id).mpr hk)
    rw [if_neg hmem]
    refine ⟨?_, ?_, ?_, ?_⟩
    · simp only [ccKeys, List.map_append]
      rw [List.nodup_append]
      exact ⟨hnd, List.nodup_singleton _, by simpa [ccKeys] using hkey⟩
    · intro t ht
      simp only [ccKeys, List.map_append, List.mem_append]
      rcases List.mem_append.mp ht with h1 | h2
      · left
        exact hcov t h1
      · right
        simp only [List.mem_singleton] at h2
        subst h2
        simp [hs]
    · intro e' he'
      rcases List.mem_append.mp he' with he | he
      · have hne : e'.1.id ≠ d.id := by
          intro hh
          exact hkey (hh ▸ (List.mem_map.mpr ⟨e', he, rfl⟩))
        simp only [List.filter_append, List.length_append,
          filter_singleton_key s d hs, if_neg hne, ← hcnt e' he]
        simp
      · simp only [List.mem_singleton] at he
        subst he
        have hl : (List.filter (fun t => t.color.id == d.id) l).length = 0 := by
          rw [List.length_eq_zero, List.filter_eq_nil_iff]
          intro t ht
          simp only [beq_iff_eq]
          intro hh
          exact hkey (hh ▸ hcov t ht)
        simp only [List.filter_append, List.length_append, hl,
          filter_singleton_key s d hs]
        simp
    · simp only [List.map_append, List.sum_append, hsum]
      simp

/-- The usage object rebuilt from a stitch list by `bumpCount` satisfies the
count invariant for that list. -/
theorem countsFor_buildCounts (l : List Stitch) : CountsFor (buildCounts l) l := by
  induction l using List.reverseRecOn with
  | nil =>
    refine ⟨by simp [buildCounts, ccKeys], by simp, by simp [buildCounts], by
      simp [buildCounts]⟩
  | append_singleton l s ih =>
    have hb : buildCounts (l ++ [s]) = bumpCount (buildCounts l) s.color := by
      simp [buildCounts, List.foldl_append]
    rw [hb]
    exact countsFor_bump s rfl ih

/-- Closed form of the count-incrementing fold shared by `limitColors` and
`mergeColors`: every entry gains the number of stitches carrying its key. -/
theorem foldl_incrKey (l : List Stitch) (cc : List (DMC × Nat)) :
    l.foldl (fun acc s => incrKey acc s.color.id) cc =
      cc.map (fun e => (e.1, e.2 + (l.filter (fun s => s.color.id == e.1.id)).length)) := by
  induction l using List.reverseRecOn with
  | nil =>
    simp
  | append_singleton l s ih =>
    rw [List.foldl_append, List.foldl_cons, List.foldl_nil, ih]
    unfold incrKey
    rw [List.map_map]
    apply List.map_congr_left
    intro e _
    simp only [Function.comp_apply, List.filter_append, List.length_append,
      filter_singleton_key s s.color rfl e.1.id]
    by_cases he : e.1.id = s.color.id
    · have ht : (e.1.id == s.color.id) = true := by simp [he]
      have hi : (s.color.id = e.1.id) := Eq.symm he
      simp [ht, hi]
      omega
    · have hf : (e.1.id == s.color.id) = false := by
        rw [beq_eq_false_iff_ne]
        exact he
      have hi : ¬(s.color.id = e.1.id) := fun hh => he (Eq.symm hh)
      simp [hf, hi]
      exact he

/-- Counts per key over a key-distinct usage object covering a stitch list
partition the list: the per-key filter lengths sum to the list length. -/
theorem sum_cnt (cc : List (DMC × Nat)) (l : List Stitch)
    (hnd : (ccKeys cc).Nodup) (hcov : ∀ s ∈ l, s.color.id ∈ ccKeys cc) :
    (cc.map (fun e => (l.filter (fun s => s.color.id == e.1.id)).length)).sum
      = l.length := by
  induction l with
  | nil => simp
  | cons s l ih =>
    have hstep : (cc.map (fun e =>
        (List.filter (fun t => t.color.id == e.1.id) (s :: l)).length))
        = cc.map (fun e => (if e.1.id = s.color.id then 1 else 0)
            + (List.filter (fun t => t.color.id == e.1.id) l).length) := by
      apply List.map_congr_left
      intro e _
      rw [List.filter_cons]
      by_cases he : e.1.id = s.color.id
      · have ht : (s.color.id == e.1.id) = true := by simp [he]
        simp [ht, he]
        omega
      · have hf : (s.color.id == e.1.id) = false := by
          rw [beq_eq_false_iff_ne]
          exact fun hh => he (Eq.symm hh)
        simp [hf, he]
    rw [hstep, sum_map_add, ih (fun t ht => hcov t (List.mem_cons_of_mem s ht))]
    have hones : (cc.map fun e => if e.1.id = s.color.id then (1 : Nat) else 0).sum
        = (ccKeys cc).count s.color.id := by
      rw [← sum_ite_key (ccKeys cc) s.color.id, ccKeys, List.map_map]
      rfl
    have hone : (ccKeys cc).count s.color.id = 1 :=
      List.count_eq_one_of_mem hnd (hcov s (List.mem_cons_self s l))
    rw [hones, hone]
    simp [Nat.add_comm]

/-- A zero-initialized, key-distinct usage object incremented once per
stitch satisfies the count invariant, provided its keys cover the
stitches. -/
theorem countsFor_incrFold (cc0 : List (DMC × Nat)) (l : List Stitch)
    (h0 : ∀ e ∈ cc0, e.2 = 0) (hnd : (ccKeys cc0).Nodup)
    (hcov : ∀ s ∈ l, s.color.id ∈ ccKeys cc0) :
    CountsFor (l.foldl (fun cc s => incrKey cc s.color.id) cc0) l := by
  rw [foldl_incrKey]
  refine ⟨?_, ?_, ?_, ?_⟩
  · rw [ccKeys_map_snd]
    exact hnd
  · intro s hsl
    rw [ccKeys_map_snd]
    exact hcov s hsl
  · intro e' he'
    obtain ⟨e, he, hee⟩ := List.mem_map.mp he'
    subst hee
    simp [h0 e he]
  · rw [List.map_map]
    have hcomp : ((fun e : DMC × Nat => e.2) ∘ fun e : DMC × Nat =>
        (e.1, e.2 + (l.filter (fun s => s.color.id == e.1.id)).length))
        = fun e : DMC × Nat =>
            e.2 + (l.filter (fun s => s.color.id == e.1.id)).length := rfl
    rw [hcomp, sum_map_add]
    have hz : (cc0.map fun e => e.2).sum = 0 := by
      rw [List.sum_eq_zero_iff]
      intro n hn
      obtain ⟨e, he, hee⟩ := List.mem_map.mp hn
      exact hee ▸ h0 e he
    rw [hz, sum_cnt cc0 l hnd hcov]
    simp

theorem insertDesc_perm (e : DMC × Nat) (l : List (DMC × Nat)) :
    (insertDesc e l).Perm (e :: l) := by
  induction l with
  | nil => simp [insertDesc]
  | cons f fs ih =>
    unfold insertDesc
    by_cases h : e.2 < f.2
    · rw [if_pos h]
      exact (ih.cons f).trans (List.Perm.swap e f fs)
    · rw [if_neg h]

theorem sortByCountDesc_perm (l : List (DMC × Nat)) :
    (sortByCountDesc l).Perm l := by
  induction l with
  | nil => simp [sortByCountDesc]
  | cons e l ih =>
    unfold sortByCountDesc at ih ⊢
    rw [List.foldr_cons]
    exact (insertDesc_perm e (l.foldr insertDesc [])).trans (ih.cons e)

theorem scanStep_inv {α : Type} (dist : α → ℚ) :
    ∀ (rest pre : List α) (acc : α × Option ℚ),
      ScanInv dist pre acc →
      ScanInv dist (pre ++ rest) (rest.foldl (scanStep dist) acc) := by
  intro rest
  induction rest with
  | nil => intro pre acc h; simpa using h
  | cons e rest ih =>
    intro pre acc h
    rw [List.foldl_cons]
    have hnext : ScanInv dist (pre ++ [e]) (scanStep dist acc e) := by
      unfold scanStep
      rcases hacc : acc.2 with _ | m
      · have hpre : pre = [] := by
          unfold ScanInv at h
          rw [hacc] at h
          exact h
        subst hpre
        refine ⟨rfl, ?_, [], [], rfl, by simp⟩
        intro x hx
        simp only [List.nil_append, List.mem_singleton] at hx
        subst hx
        exact le_refl _
      · unfold ScanInv at h
        rw [hacc] at h
        obtain ⟨hm, hmin, l1, l2, hsplit, hstrict⟩ := h
        show ScanInv dist (pre ++ [e]) (if dist e < m then (e, some (dist e)) else acc)
        by_cases hlt : dist e < m
        · rw [if_pos hlt]
          refine ⟨rfl, ?_, pre, [], by simp, ?_⟩
          · intro x hx
            rcases List.mem_append.mp hx with h1 | h2
            · exact le_of_lt (lt_of_lt_of_le hlt (hmin x h1))
            · simp only [List.mem_singleton] at h2
              subst h2
              exact le_refl _
          · intro x hx
            exact lt_of_lt_of_le hlt (hmin x hx)
        · rw [if_neg hlt]
          unfold ScanInv
          rw [hacc]
          refine ⟨hm, ?_, l1, l2 ++ [e], ?_, hstrict⟩
          · intro x hx
            rcases List.mem_append.mp hx with h1 | h2
            · exact hmin x h1
            · simp only [List.mem_singleton] at h2
              subst h2
              exact le_of_not_lt hlt
          · rw [hsplit]
            simp
    have := ih (pre ++ [e]) (scanStep dist acc e) hnext
    simpa using this

/-- The linear argmin scans return the first element of minimal distance:
membership, global minimality, and strict minimality over the prefix
before the returned element. -/
theorem scan_first_min {α : Type} (dist : α → ℚ) (l : List α) (a0 : α)
    (hne : l ≠ []) :
    (l.foldl (scanStep dist) (a0, none)).1 ∈ l ∧
    (∀ e ∈ l, dist (l.foldl (scanStep dist) (a0, none)).1 ≤ dist e) ∧
    ∃ l1 l2, l = l1 ++ (l.foldl (scanStep dist) (a0, none)).1 :: l2 ∧
      ∀ e ∈ l1, dist (l.foldl (scanStep dist) (a0, none)).1 < dist e := by
  have hinv := scanStep_inv dist l [] (a0, none) (by rfl)
  rw [List.nil_append] at hinv
  rcases hfin : (l.foldl (scanStep dist) (a0, none)).2 with _ | m
  · unfold ScanInv at hinv
    rw [hfin] at hinv
    exact absurd hinv hne
  · unfold ScanInv at hinv
    rw [hfin] at hinv
    obtain ⟨hm, hmin, l1, l2, hsplit, hstrict⟩ := hinv
    refine ⟨?_, ?_, l1, l2, hsplit, ?_⟩
    · have hres : (l.foldl (scanStep dist) (a0, none)).1
          ∈ l1 ++ (l.foldl (scanStep dist) (a0, none)).1 :: l2 :=
        List.mem_append.mpr (Or.inr (List.mem_cons_self _ _))
      rw [← hsplit] at hres
      exact hres
    · intro e he
      have hh := hmin e he
      rwa [hm] at hh
    · intro e he
      have hh := hstrict e he
      rwa [hm] at hh

/-- The linear argmin scan of `limitColors` returns a member of the scanned
list when it is non-empty. -/
theorem closestTop_mem (t : List (DMC × Nat)) (rgb : RGB) (ht : t ≠ []) :
    closestTop t rgb ∈ t := by
  have h := scan_first_min (fun e => wdistSq (dmcRGB e.1) rgb) t (t.headD default) ht
  exact h.1

/-- The `reduce` of `mergeColors` picks a member of the group's colors. -/
theorem groupRep_mem (g : ColorGroup) (h : g.colors ≠ []) :
    groupRep g ∈ g.colors := by
  unfold groupRep
  rcases hg : g.colors with _ | ⟨e, es⟩
  · exact absurd hg h
  · have main : ∀ (l : List (DMC × Nat)) (a : DMC × Nat),
        a ∈ e :: es → (∀ x ∈ l, x ∈ e :: es) →
        (l.foldl (fun prev curr => if prev.2 < curr.2 then curr else prev) a) ∈ e :: es := by
      intro l
      induction l with
      | nil => intro a ha _; exact ha
      | cons c l ih =>
        intro a ha hsub
        rw [List.foldl_cons]
        apply ih
        · by_cases hlt : a.2 < c.2
          · simpa [hlt] using hsub c (List.mem_cons_self c l)
          · simpa [hlt] using ha
        · exact fun x hx => hsub x (List.mem_cons_of_mem c hx)
    rw [← hg]
    rw [hg]
    exact main es e (List.mem_cons_self e es) (fun x hx => List.mem_cons_of_mem e hx)

theorem addColorToGroups_perm (tolerance : ℚ) (gs : List ColorGroup) (c : DMC × Nat) :
    (groupsColors (addColorToGroups tolerance gs c)).Perm (groupsColors gs ++ [c]) := by
  induction gs with
  | nil => simp [groupsColors, addColorToGroups]
  | cons g rest ih =>
    unfold addColorToGroups
    by_cases h : isSimilarColor (dmcRGB c.1) g.representative tolerance = true
    · rw [if_pos h]
      simp only [groupsColors, List.flatMap_cons, List.append_assoc]
      exact List.Perm.append_left g.colors List.perm_append_comm
    · rw [if_neg h]
      simp only [groupsColors, List.flatMap_cons, List.append_assoc] at ih ⊢
      exact List.Perm.append_left g.colors ih

theorem mergeGroups_perm (p : Pattern) (tolerance : ℚ) :
    (groupsColors (mergeGroups p tolerance)).Perm p.colorCounts := by
  unfold mergeGroups
  have main : ∀ (l : List (DMC × Nat)) (gs : List ColorGroup),
      (groupsColors (l.foldl (addColorToGroups tolerance) gs)).Perm
        (groupsColors gs ++ l) := by
    intro l
    induction l with
    | nil => simp
    | cons c l ih =>
      intro gs
      rw [List.foldl_cons]
      refine (ih (addColorToGroups tolerance gs c)).trans ?_
      have h2 := (addColorToGroups_perm tolerance gs c).append_right l
      have h3 : (groupsColors gs ++ [c]) ++ l = groupsColors gs ++ (c :: l) := by
        simp
      rw [h3] at h2
      exact h2
  have h := main p.colorCounts []
  simpa [groupsColors] using h

theorem addColorToGroups_nonempty (tolerance : ℚ) (gs : List ColorGroup)
    (c : DMC × Nat) (h : ∀ g ∈ gs, g.colors ≠ []) :
    ∀ g ∈ addColorToGroups tolerance gs c, g.colors ≠ [] := by
  induction gs with
  | nil =>
    intro g hg
    simp only [addColorToGroups, List.mem_singleton] at hg
    subst hg
    simp
  | cons g0 rest ih =>
    intro g hg
    unfold addColorToGroups at hg
    by_cases hsim : isSimilarColor (dmcRGB c.1) g0.representative tolerance = true
    · rw [if_pos hsim] at hg
      rcases List.mem_cons.mp hg with h1 | h2
      · subst h1
        simp only [ne_eq]
        intro habs
        have := List.append_eq_nil.mp habs
        exact (h g0 (List.mem_cons_self g0 rest)) this.1
      · exact h g (List.mem_cons_of_mem g0 h2)
    · rw [if_neg hsim] at hg
      rcases List.mem_cons.mp hg with h1 | h2
      · subst h1
        exact h g (List.mem_cons_self g rest)
      · exact ih (fun g' hg' => h g' (List.mem_cons_of_mem g0 hg')) g h2

theorem mergeGroups_nonempty (p : Pattern) (tolerance : ℚ) :
    ∀ g ∈ mergeGroups p tolerance, g.colors ≠ [] := by
  unfold mergeGroups
  have main : ∀ (l : List (DMC × Nat)) (gs : List ColorGroup),
      (∀ g ∈ gs, g.colors ≠ []) →
      ∀ g ∈ l.foldl (addColorToGroups tolerance) gs, g.colors ≠ [] := by
    intro l
    induction l with
    | nil => intro gs h; simpa using h
    | cons c l ih =>
      intro gs h
      rw [List.foldl_cons]
      exact ih (addColorToGroups tolerance gs c)
        (addColorToGroups_nonempty tolerance gs c h)
  exact main p.colorCounts [] (by simp)

/-- Picking one member id out of each cluster yields distinct ids when the
flattened member ids are distinct. -/
theorem picks_nodup (gs : List ColorGroup)
    (pick : ColorGroup → DMC × Nat)
    (hpick : ∀ g ∈ gs, pick g ∈ g.colors)
    (hnd : ((groupsColors gs).map (fun e => e.1.id)).Nodup) :
    (gs.map (fun g => (pick g).1.id)).Nodup := by
  induction gs with
  | nil => simp
  | cons g rest ih =>
    simp only [groupsColors, List.flatMap_cons, List.map_append,
      List.nodup_append] at hnd
    obtain ⟨hnd1, hnd2, hdisj⟩ := hnd
    rw [List.map_cons, List.nodup_cons]
    constructor
    · intro habs
      obtain ⟨g', hg', heq⟩ := List.mem_map.mp habs
      have h1 : (pick g).1.id ∈ g.colors.map (fun e => e.1.id) :=
        List.mem_map.mpr ⟨pick g, hpick g (List.mem_cons_self g rest), rfl⟩
      have h2 : (pick g').1.id ∈ (groupsColors rest).map (fun e => e.1.id) := by
        apply List.mem_map.mpr
        refine ⟨pick g', ?_, rfl⟩
        simp only [groupsColors, List.mem_flatMap]
        exact ⟨g', hg', hpick g' (List.mem_cons_of_mem g hg')⟩
      rw [groupsColors] at h2
      exact (hdisj h1) (heq ▸ h2)
    · exact ih (fun g' hg' => hpick g' (List.mem_cons_of_mem g hg')) hnd2

theorem cellsOfRows_append (gridWidth : Nat) (ys1 ys2 : List Nat) :
    cellsOfRows gridWidth (ys1 ++ ys2)
      = cellsOfRows gridWidth ys1 ++ cellsOfRows gridWidth ys2 := by
  simp [cellsOfRows]

theorem processRows_append (palette : List DMC) (img : ImageData) (opts : Options)
    (gridWidth : Nat) (cellW cellH : ℚ) (st : ConvState) (ys1 ys2 : List Nat) :
    processRows palette img opts gridWidth cellW cellH st (ys1 ++ ys2)
      = processRows palette img opts gridWidth cellW cellH
          (processRows palette img opts gridWidth cellW cellH st ys1) ys2 := by
  simp [processRows, cellsOfRows_append, List.foldl_append]

/-- Chunking irrelevance: the final state of the chunked loop equals a
single row-major pass over the remaining rows. -/
theorem processChunk_fst (palette : List DMC) (img : ImageData) (opts : Options)
    (gridWidth gridHeight : Nat) (cellW cellH : ℚ) (startY : Nat) (st : ConvState) :
    (processChunk palette img opts gridWidth gridHeight cellW cellH startY st).1
      = processRows palette img opts gridWidth cellW cellH st
          (List.range' startY (gridHeight - startY)) := by
  have main : ∀ n startY st, gridHeight - startY = n →
      (processChunk palette img opts gridWidth gridHeight cellW cellH startY st).1
      = processRows palette img opts gridWidth cellW cellH st
          (List.range' startY (gridHeight - startY)) := by
    intro n
    induction n using Nat.strong_induction_on with
    | _ n ih =>
      intro startY st hn
      rw [processChunk]
      by_cases h : min (startY + 5) gridHeight < gridHeight
      · rw [dif_pos h]
        have hE : min (startY + 5) gridHeight = startY + 5 := by omega
        have hrec := ih (gridHeight - min (startY + 5) gridHeight) (by omega)
          (min (startY + 5) gridHeight)
          (processRows palette img opts gridWidth cellW cellH st
            (List.range' startY (min (startY + 5) gridHeight - startY))) rfl
        rw [hrec, ← processRows_append]
        congr 1
        have h5 : min (startY + 5) gridHeight - startY = 5 := by omega
        rw [h5, hE]
        have := List.range'_append_1 startY 5 (gridHeight - (startY + 5))
        rw [this]
        congr 1
        omega
      · rw [dif_neg h]
        have hE : min (startY + 5) gridHeight = gridHeight := by omega
        simp only [hE]
  exact main (gridHeight - startY) startY st rfl

theorem stepCell_processed (palette : List DMC) (img : ImageData) (opts : Options)
    (cellW cellH : ℚ) (st : ConvState) (cell : Nat × Nat) :
    (stepCell palette img opts cellW cellH st cell).processed = st.processed + 1 := by
  simp only [stepCell]
  split
  · split <;> rfl
  · rfl

theorem foldl_stepCell_processed (palette : List DMC) (img : ImageData)
    (opts : Options) (cellW cellH : ℚ) (cells : List (Nat × Nat)) (st : ConvState) :
    (cells.foldl (stepCell palette img opts cellW cellH) st).processed
      = st.processed + cells.length := by
  induction cells generalizing st with
  | nil => simp
  | cons c cells ih =>
    rw [List.foldl_cons, ih, stepCell_processed]
    simp only [List.length_cons]
    omega

theorem cellsOfRows_length (gridWidth : Nat) (ys : List Nat) :
    (cellsOfRows gridWidth ys).length = ys.length * gridWidth := by
  induction ys with
  | nil => simp [cellsOfRows]
  | cons y ys ih =>
    simp only [cellsOfRows, List.flatMap_cons, List.length_append, List.length_map,
      List.length_range, List.length_cons] at ih ⊢
    rw [Nat.succ_mul]
    omega

theorem processRows_processed (palette : List DMC) (img : ImageData)
    (opts : Options) (gridWidth : Nat) (cellW cellH : ℚ) (st : ConvState)
    (ys : List Nat) :
    (processRows palette img opts gridWidth cellW cellH st ys).processed
      = st.processed + ys.length * gridWidth := by
  rw [processRows, foldl_stepCell_processed, cellsOfRows_length]

theorem buildCounts_snoc (l : List Stitch) (s : Stitch) :
    buildCounts (l ++ [s]) = bumpCount (buildCounts l) s.color := by
  simp [buildCounts, List.foldl_append]

/-- Through the conversion loop, `colorCounts` is exactly the usage object
rebuilt from the accumulated stitches. -/
theorem stepCell_counts (palette : List DMC) (img : ImageData) (opts : Options)
    (cellW cellH : ℚ) (st : ConvState) (cell : Nat × Nat)
    (h : st.colorCounts = buildCounts st.stitches) :
    (stepCell palette img opts cellW cellH st cell).colorCounts
      = buildCounts (stepCell palette img opts cellW cellH st cell).stitches := by
  simp only [stepCell]
  split
  · split
    · exact h
    · simp only [buildCounts_snoc, h]
  · exact h

theorem foldl_stepCell_counts (palette : List DMC) (img : ImageData)
    (opts : Options) (cellW cellH : ℚ) (cells : List (Nat × Nat)) (st : ConvState)
    (h : st.colorCounts = buildCounts st.stitches) :
    (cells.foldl (stepCell palette img opts cellW cellH) st).colorCounts
      = buildCounts (cells.foldl (stepCell palette img opts cellW cellH) st).stitches := by
  induction cells generalizing st with
  | nil => exact h
  | cons c cells ih =>
    rw [List.foldl_cons]
    exact ih _ (stepCell_counts palette img opts cellW cellH st c h)

theorem getD_set_ne {α : Type} (l : List α) (i j : Nat) (a d : α) (h : i ≠ j) :
    (l.set i a).getD j d = l.getD j d := by
  simp [List.getD_eq_getElem?_getD, List.getElem?_set_ne h]

/-- Alpha bytes (flat indices congruent to 3 mod 4) are never written by
`distributeError`. -/
theorem distributeError_alpha (data : List Nat) (width height : Nat) (x y : Int)
    (errR errG errB : Int) (factor : ℚ) (m : Nat) (hm : m % 4 = 3) :
    (distributeError data width height x y errR errG errB factor).getD m 0
      = data.getD m 0 := by
  simp only [distributeError]
  split
  · rfl
  · rename_i hin
    push_neg at hin
    obtain ⟨hx0, hxw, hy0, hyh⟩ := hin
    have hyw : 0 ≤ y * (width : Int) := mul_nonneg hy0 (Int.natCast_nonneg width)
    have h0 : 0 ≤ y * (width : Int) + x := add_nonneg hyw hx0
    have hk : ((y * (width : Int) + x) * 4).toNat = 4 * (y * (width : Int) + x).toNat := by
      omega
    rw [hk]
    rw [getD_set_ne _ (4 * (y * (width : Int) + x).toNat + 2) m _ _ (by omega),
      getD_set_ne _ (4 * (y * (width : Int) + x).toNat + 1) m _ _ (by omega),
      getD_set_ne _ (4 * (y * (width : Int) + x).toNat) m _ _ (by omega)]

theorem applyDither_alpha (alg : DitherAlg) (wd : List Nat) (w hgt : Nat)
    (sx sy eR eG eB : Int) (m : Nat) (hm : m % 4 = 3) :
    (applyDither alg wd w hgt sx sy eR eG eB).getD m 0 = wd.getD m 0 := by
  cases alg
  · simp only [applyDither]
    rw [distributeError_alpha _ _ _ _ _ _ _ _ _ m hm,
      distributeError_alpha _ _ _ _ _ _ _ _ _ m hm,
      distributeError_alpha _ _ _ _ _ _ _ _ _ m hm,
      distributeError_alpha _ _ _ _ _ _ _ _ _ m hm]
  · simp only [applyDither]
    rw [distributeError_alpha _ _ _ _ _ _ _ _ _ m hm,
      distributeError_alpha _ _ _ _ _ _ _ _ _ m hm,
      distributeError_alpha _ _ _ _ _ _ _ _ _ m hm,
      distributeError_alpha _ _ _ _ _ _ _ _ _ m hm,
      distributeError_alpha _ _ _ _ _ _ _ _ _ m hm,
      distributeError_alpha _ _ _ _ _ _ _ _ _ m hm]

theorem stepCell_alpha (palette : List DMC) (img : ImageData) (opts : Options)
    (cellW cellH : ℚ) (st : ConvState) (cell : Nat × Nat)
    (h : AlphaSame img st.workingData) :
    AlphaSame img (stepCell palette img opts cellW cellH st cell).workingData := by
  simp only [stepCell]
  split
  · split
    · exact h
    · intro m hm
      split
      · rw [applyDither_alpha _ _ _ _ _ _ _ _ _ m hm]
        exact h m hm
      · exact h m hm
  · exact h

theorem stepCell_gate (palette : List DMC) (img : ImageData) (opts : Options)
    (cellW cellH : ℚ) (st : ConvState) (cell : Nat × Nat)
    (h : AlphaSame img st.workingData) :
    st.workingData.getD
      (((⌊(cell.1 : ℚ) * cellH + cellH / 2⌋).toNat * img.width
        + (⌊(cell.2 : ℚ) * cellW + cellW / 2⌋).toNat) * 4 + 3) 0
      = cellAlpha img cellW cellH cell :=
  h _ (by omega)

/-- Under any options, a cell adds at most one stitch, and only when the
sampled alpha (of the original buffer) exceeds 128. -/
theorem stepCell_stitch_le (palette : List DMC) (img : ImageData) (opts : Options)
    (cellW cellH : ℚ) (st : ConvState) (cell : Nat × Nat)
    (h : AlphaSame img st.workingData) :
    (stepCell palette img opts cellW cellH st cell).stitches.length ≤
      st.stitches.length
        + (if 128 < cellAlpha img cellW cellH cell then 1 else 0) := by
  have ha := stepCell_gate palette img opts cellW cellH st cell h
  simp only [stepCell, ha]
  split
  · split
    · simp
    · simp
  · simp

/-- With background removal disabled, a cell adds a stitch exactly when the
sampled alpha exceeds 128. -/
theorem stepCell_stitch_eq (palette : List DMC) (img : ImageData) (opts : Options)
    (cellW cellH : ℚ) (st : ConvState) (cell : Nat × Nat)
    (hrb : opts.removeBackground = false)
    (h : AlphaSame img st.workingData) :
    (stepCell palette img opts cellW cellH st cell).stitches.length =
      st.stitches.length
        + (if 128 < cellAlpha img cellW cellH cell then 1 else 0) := by
  have ha := stepCell_gate palette img opts cellW cellH st cell h
  simp only [stepCell, ha, hrb]
  split
  · simp
  · simp

theorem foldl_stepCell_stitch_le (palette : List DMC) (img : ImageData)
    (opts : Options) (cellW cellH : ℚ) (cells : List (Nat × Nat)) (st : ConvState)
    (h : AlphaSame img st.workingData) :
    (cells.foldl (stepCell palette img opts cellW cellH) st).stitches.length ≤
      st.stitches.length
        + cells.countP (fun c => decide (128 < cellAlpha img cellW cellH c)) := by
  induction cells generalizing st with
  | nil => simp
  | cons c cells ih =>
    rw [List.foldl_cons]
    have h1 := ih (stepCell palette img opts cellW cellH st c)
      (stepCell_alpha palette img opts cellW cellH st c h)
    have h2 := stepCell_stitch_le palette img opts cellW cellH st c h
    rw [List.countP_cons]
    by_cases hc : 128 < cellAlpha img cellW cellH c
    · rw [if_pos hc] at h2
      have hd : decide (128 < cellAlpha img cellW cellH c) = true := by simpa using hc
      rw [if_pos hd]
      omega
    · rw [if_neg hc] at h2
      have hd : ¬(decide (128 < cellAlpha img cellW cellH c) = true) := by
        simpa using hc
      rw [if_neg hd]
      omega

theorem foldl_stepCell_stitch_eq (palette : List DMC) (img : ImageData)
    (opts : Options) (cellW cellH : ℚ) (cells : List (Nat × Nat)) (st : ConvState)
    (hrb : opts.removeBackground = false)
    (h : AlphaSame img st.workingData) :
    (cells.foldl (stepCell palette img opts cellW cellH) st).stitches.length =
      st.stitches.length
        + cells.countP (fun c => decide (128 < cellAlpha img cellW cellH c)) := by
  induction cells generalizing st with
  | nil => simp
  | cons c cells ih =>
    rw [List.foldl_cons]
    have h1 := ih (stepCell palette img opts cellW cellH st c)
      (stepCell_alpha palette img opts cellW cellH st c h)
    have h2 := stepCell_stitch_eq palette img opts cellW cellH st c hrb h
    rw [List.countP_cons, h1, h2]
    by_cases hc : 128 < cellAlpha img cellW cellH c
    · have hd : decide (128 < cellAlpha img cellW cellH c) = true := by simpa using hc
      rw [if_pos hc, if_pos hd]
      omega
    · have hd : ¬(decide (128 < cellAlpha img cellW cellH c) = true) := by
        simpa using hc
      rw [if_neg hc, if_neg hd]
      omega

theorem mem_filterP {α : Type} (p : α → Prop) (l : List α) (a : α) :
    a ∈ filterP p l ↔ a ∈ l ∧ p a := by
  induction l with
  | nil => simp [filterP]
  | cons b l ih =>
    rw [filterP]
    by_cases hb : p b
    · rw [if_pos hb]
      constructor
      · intro h
        rcases List.mem_cons.mp h with h1 | h2
        · exact ⟨h1 ▸ List.mem_cons_self b l, h1 ▸ hb⟩
        · obtain ⟨hm, hp⟩ := ih.mp h2
          exact ⟨List.mem_cons_of_mem b hm, hp⟩
      · rintro ⟨hm, hp⟩
        rcases List.mem_cons.mp hm with h1 | h2
        · exact h1 ▸ List.mem_cons_self a _
        · exact List.mem_cons_of_mem b (ih.mpr ⟨h2, hp⟩)
    · rw [if_neg hb]
      constructor
      · intro h
        obtain ⟨hm, hp⟩ := ih.mp h
        exact ⟨List.mem_cons_of_mem b hm, hp⟩
      · rintro ⟨hm, hp⟩
        rcases List.mem_cons.mp hm with h1 | h2
        · exact absurd (h1 ▸ hp) hb
        · exact ih.mpr ⟨h2, hp⟩

theorem pctOf_mono (p q t : Nat) (h : p ≤ q) : pctOf p t ≤ pctOf q t := by
  unfold pctOf jsRound
  apply Int.toNat_le_toNat
  apply Int.floor_le_floor
  have hpq : (p : ℚ) / t ≤ (q : ℚ) / t := by
    rcases Nat.eq_zero_or_pos t with ht | ht
    · simp [ht]
    · have h0 : (0 : ℚ) < t := by exact_mod_cast ht
      have hq : (p : ℚ) ≤ q := by exact_mod_cast h
      exact (div_le_div_iff_of_pos_right h0).mpr hq
  have := mul_le_mul_of_nonneg_right hpq (by norm_num : (0:ℚ) ≤ 100)
  linarith

theorem pctOf_le_100 (p t : Nat) (hpt : p ≤ t) (ht : 1 ≤ t) : pctOf p t ≤ 100 := by
  unfold pctOf jsRound
  have h0 : (0 : ℚ) < t := by exact_mod_cast ht
  have hq : (p : ℚ) ≤ t := by exact_mod_cast hpt
  have hdiv : (p : ℚ) / t ≤ 1 := by
    rw [div_le_one h0]
    exact hq
  have hlt : (p : ℚ) / t * 100 + 1 / 2 < 101 := by nlinarith
  have hfl : ⌊(p : ℚ) / t * 100 + 1 / 2⌋ < 101 := Int.floor_lt.mpr (by exact_mod_cast hlt)
  omega

theorem pctOf_total (t : Nat) (ht : 1 ≤ t) : pctOf t t = 100 := by
  unfold pctOf jsRound
  have h0 : (t : ℚ) ≠ 0 := by
    have : (0 : ℚ) < t := by exact_mod_cast ht
    exact ne_of_gt this
  rw [div_self h0]
  have h1 : (1 : ℚ) * 100 + 1 / 2 = 201 / 2 := by norm_num
  rw [h1]
  have h2 : ⌊(201 : ℚ) / 2⌋ = 100 := by
    rw [Int.floor_eq_iff] <;> norm_num
  rw [h2]
  rfl

theorem getLast?_cons_of_ne_nil {α : Type} (a : α) (l : List α) (h : l ≠ []) :
    (a :: l).getLast? = l.getLast? := by
  cases l with
  | nil => exact absurd rfl h
  | cons x xs => rw [List.getLast?_cons_cons]

/-- Shape of the progress sequence from any chunk boundary: non-empty,
first report known, non-decreasing, capped at 100, ending at exactly 100. -/
theorem processChunk_reports (palette : List DMC) (img : ImageData) (opts : Options)
    (gridWidth gridHeight : Nat) (cellW cellH : ℚ)
    (hgw : 1 ≤ gridWidth) (hgh : 1 ≤ gridHeight) :
    ∀ n startY st, gridHeight - startY = n → startY < gridHeight →
      st.processed = startY * gridWidth →
      (processChunk palette img opts gridWidth gridHeight cellW cellH startY st).2 ≠ [] ∧
      (processChunk palette img opts gridWidth gridHeight cellW cellH startY st).2.head?
        = some (pctOf (min (startY + 5) gridHeight * gridWidth)
            (gridWidth * gridHeight)) ∧
      List.Chain' (· ≤ ·)
        (processChunk palette img opts gridWidth gridHeight cellW cellH startY st).2 ∧
      (processChunk palette img opts gridWidth gridHeight cellW cellH startY st).2.getLast?
        = some 100 ∧
      ∀ r ∈ (processChunk palette img opts gridWidth gridHeight cellW cellH startY st).2,
        r ≤ 100 := by
  intro n
  induction n using Nat.strong_induction_on with
  | _ n ih =>
    intro startY st hn hlt hp
    have hproc : (processRows palette img opts gridWidth cellW cellH st
        (List.range' startY (min (startY + 5) gridHeight - startY))).processed
        = min (startY + 5) gridHeight * gridWidth := by
      rw [processRows_processed, List.length_range', hp]
      have : startY ≤ min (startY + 5) gridHeight := by omega
      rw [← Nat.add_mul]
      congr 1
      omega
    rw [processChunk]
    by_cases h : min (startY + 5) gridHeight < gridHeight
    · rw [dif_pos h]
      have hE : min (startY + 5) gridHeight = startY + 5 := by omega
      obtain ⟨hne, hhead, hchain, hlast, hcap⟩ :=
        ih (gridHeight - min (startY + 5) gridHeight) (by omega)
          (min (startY + 5) gridHeight) _ rfl h hproc
      refine ⟨by simp, by simp [hproc], ?_, ?_, ?_⟩
      · rw [List.chain'_cons']
        refine ⟨?_, hchain⟩
        intro b hb
        rw [hhead] at hb
        simp only [Option.mem_def, Option.some.injEq] at hb
        subst hb
        rw [hproc]
        apply pctOf_mono
        have : min (startY + 5) gridHeight ≤
            min (min (startY + 5) gridHeight + 5) gridHeight := by omega
        exact Nat.mul_le_mul_right gridWidth this
      · rw [getLast?_cons_of_ne_nil _ _ hne]
        exact hlast
      · intro r hr
        rcases List.mem_cons.mp hr with h1 | h2
        · subst h1
          rw [hproc]
          apply pctOf_le_100
          · have : min (startY + 5) gridHeight ≤ gridHeight := by omega
            calc min (startY + 5) gridHeight * gridWidth
                ≤ gridHeight * gridWidth := Nat.mul_le_mul_right gridWidth this
              _ = gridWidth * gridHeight := Nat.mul_comm gridHeight gridWidth
          · exact Nat.one_le_iff_ne_zero.mpr (by positivity)
        · exact hcap r h2
    · rw [dif_neg h]
      have hE : min (startY + 5) gridHeight = gridHeight := by omega
      have h100 : pctOf ((processRows palette img opts gridWidth cellW cellH st
          (List.range' startY (min (startY + 5) gridHeight - startY))).processed)
          (gridWidth * gridHeight) = 100 := by
        rw [hproc, hE, Nat.mul_comm]
        exact pctOf_total (gridWidth * gridHeight) (Nat.one_le_iff_ne_zero.mpr
          (by positivity))
      refine ⟨by simp, ?_, ?_, ?_, ?_⟩
      · simp [hproc]
      · simp
      · simp [h100]
      · intro r hr
        simp only [List.mem_singleton] at hr
        subst hr
        rw [h100]

theorem lookup_mem {β : Type} (l : List (String × β)) (a : String) (b : β)
    (h : List.lookup a l = some b) : (a, b) ∈ l := by
  induction l with
  | nil => simp [List.lookup] at h
  | cons p l ih =>
    rw [List.lookup] at h
    by_cases hk : (a == p.1) = true
    · simp only [hk, Option.some.injEq] at h
      rw [beq_iff_eq] at hk
      have hp : p = (a, b) := by
        cases p
        simp only [Prod.mk.injEq]
        exact ⟨Eq.symm hk, h⟩
      rw [← hp]
      exact List.mem_cons_self p l
    · simp only [Bool.not_eq_true] at hk
      simp only [hk] at h
      exact List.mem_cons_of_mem p (ih h)

theorem lookup_none_keys {β : Type} (l : List (String × β)) (a : String)
    (h : List.lookup a l = none) : a ∉ l.map (fun e => e.1) := by
  induction l with
  | nil => simp
  | cons p l ih =>
    rw [List.lookup] at h
    by_cases hk : (a == p.1) = true
    · simp only [hk] at h
      exact Option.noConfusion h
    · simp only [Bool.not_eq_true] at hk
      simp only [hk] at h
      rw [beq_eq_false_iff_ne] at hk
      simp only [List.map_cons, List.mem_cons]
      rintro (h1 | h2)
      · exact hk h1
      · exact ih h h2

/-- `limitColors` preserves the pattern count invariant. -/
theorem limitColors_INV (p : Pattern) (k : Int) (hp : INV p) :
    INV (limitColors p k) := by
  obtain ⟨hnd, hcov, hcnt, hsum⟩ := hp
  simp only [limitColors]
  split_ifs with h1 h2
  · exact ⟨hnd, hcov, hcnt, hsum⟩
  · exact ⟨hnd, hcov, hcnt, hsum⟩
  · have hpermk : ((ccKeys (sortByCountDesc p.colorCounts))).Perm
        (ccKeys p.colorCounts) := (sortByCountDesc_perm p.colorCounts).map _
    have hndsorted : (ccKeys (sortByCountDesc p.colorCounts)).Nodup :=
      hpermk.nodup_iff.mpr hnd
    have hndtop : (ccKeys ((sortByCountDesc p.colorCounts).take k.toNat)).Nodup := by
      have : ccKeys ((sortByCountDesc p.colorCounts).take k.toNat)
          = (ccKeys (sortByCountDesc p.colorCounts)).take k.toNat := by
        simp [ccKeys, List.map_take]
      rw [this]
      exact hndsorted.sublist (List.take_sublist _ _)
    have htopne : (sortByCountDesc p.colorCounts).take k.toNat ≠ [] := by
      have hlen : ((sortByCountDesc p.colorCounts).take k.toNat).length
          = min k.toNat (sortByCountDesc p.colorCounts).length := by
        simp
      intro habs
      rw [habs] at hlen
      simp only [List.length_nil] at hlen
      omega
    show CountsFor _ _
    apply countsFor_incrFold
    · intro e he
      obtain ⟨x, hx, hxe⟩ := List.mem_map.mp he
      rw [← hxe]
    · have : ccKeys (((sortByCountDesc p.colorCounts).take k.toNat).map
          (fun e => (e.1, 0)))
          = ccKeys ((sortByCountDesc p.colorCounts).take k.toNat) :=
        ccKeys_map_snd _ (fun _ => 0)
      rw [this]
      exact hndtop
    · intro s hs
      obtain ⟨t, ht, hts⟩ := List.mem_map.mp hs
      subst hts
      have hkeys : ccKeys (((sortByCountDesc p.colorCounts).take k.toNat).map
          (fun e => (e.1, 0)))
          = ccKeys ((sortByCountDesc p.colorCounts).take k.toNat) :=
        ccKeys_map_snd _ (fun _ => 0)
      rw [hkeys]
      unfold limitRemap
      split
      · rename_i hany
        rw [List.any_eq_true] at hany
        obtain ⟨e, he, hee⟩ := hany
        rw [beq_iff_eq] at hee
        exact hee ▸ List.mem_map.mpr ⟨e, he, rfl⟩
      · have hmem := closestTop_mem ((sortByCountDesc p.colorCounts).take k.toNat)
          (dmcRGB t.color) htopne
        exact List.mem_map.mpr ⟨_, hmem, rfl⟩

/-- `mergeColors` preserves the pattern count invariant. -/
theorem mergeColors_INV (p : Pattern) (tol : ℚ) (hp : INV p) :
    INV (mergeColors p tol) := by
  obtain ⟨hnd, hcov, hcnt, hsum⟩ := hp
  simp only [mergeColors]
  split_ifs with h1 h2
  · exact ⟨hnd, hcov, hcnt, hsum⟩
  · exact ⟨hnd, hcov, hcnt, hsum⟩
  · have hne := mergeGroups_nonempty p tol
    have hpick : ∀ g ∈ mergeGroups p tol, groupRep g ∈ g.colors :=
      fun g hg => groupRep_mem g (hne g hg)
    have hflat : (((groupsColors (mergeGroups p tol))).map (fun e => e.1.id)).Nodup := by
      have hperm := (mergeGroups_perm p tol).map (fun e : DMC × Nat => e.1.id)
      exact hperm.nodup_iff.mpr hnd
    have hpicks := picks_nodup (mergeGroups p tol) groupRep hpick hflat
    have hkeys0 : ccKeys ((mergeGroups p tol).map (fun g => ((groupRep g).1, 0)))
        = (mergeGroups p tol).map (fun g => (groupRep g).1.id) := by
      simp [ccKeys, List.map_map]
    show CountsFor _ _
    apply countsFor_incrFold
    · intro e he
      obtain ⟨x, hx, hxe⟩ := List.mem_map.mp he
      rw [← hxe]
    · rw [hkeys0]
      exact hpicks
    · intro s hs
      obtain ⟨t, ht, hts⟩ := List.mem_map.mp hs
      subst hts
      rw [hkeys0]
      unfold mergeRemap
      rcases hl : List.lookup t.color.id (mergeMapping (mergeGroups p tol))
        with _ | rep
      · exfalso
        have hnot := lookup_none_keys _ _ hl
        have hkey : t.color.id ∈ ccKeys p.colorCounts := hcov t ht
        have hpermids := (mergeGroups_perm p tol).map (fun e : DMC × Nat => e.1.id)
        have hkey2 : t.color.id ∈ (groupsColors (mergeGroups p tol)).map
            (fun e => e.1.id) := hpermids.mem_iff.mpr hkey
        obtain ⟨c, hc, hcid⟩ := List.mem_map.mp hkey2
        obtain ⟨g, hg, hcg⟩ := List.mem_flatMap.mp hc
        apply hnot
        apply List.mem_map.mpr
        refine ⟨(c.1.id, groupRep g), ?_, hcid⟩
        unfold mergeMapping
        apply List.mem_flatMap.mpr
        exact ⟨g, hg, List.mem_map.mpr ⟨c, hcg, rfl⟩⟩
      · have hmm := lookup_mem _ _ _ hl
        obtain ⟨g, hg, hgm⟩ := List.mem_flatMap.mp hmm
        obtain ⟨c, hcg, hce⟩ := List.mem_map.mp hgm
        have hrep : rep = groupRep g := by
          have := congrArg Prod.snd hce
          simpa using this.symm
        rw [hrep]
        exact List.mem_map.mpr ⟨g, hg, rfl⟩

/-- `applyShapeMask` rebuilds a valid usage object from the surviving
stitches (and is the identity for `rectangle`). -/
theorem applyShapeMask_INV (p : Pattern) (shape : Shape) (hp : INV p) :
    INV (applyShapeMask p shape) := by
  cases shape
  · exact hp
  · exact countsFor_buildCounts _
  · exact countsFor_buildCounts _
  · exact countsFor_buildCounts _
  · exact countsFor_buildCounts _
  · exact countsFor_buildCounts _

/-- The pattern resolved by `convertToPattern` satisfies the count
invariant: stitches and `colorCounts` are accumulated in lockstep. -/
theorem convertToPattern_INV (palette : List DMC) (img : ImageData)
    (gridSize : Nat) (opts : Options) :
    INV (convertToPattern palette img gridSize opts) := by
  show CountsFor (convertToPattern palette img gridSize opts).colorCounts
    (convertToPattern palette img gridSize opts).stitches
  simp only [convertToPattern, convertToPatternFull]
  rw [processChunk_fst]
  simp only [processRows]
  rw [foldl_stepCell_counts _ _ _ _ _ _ _ rfl]
  exact countsFor_buildCounts _

/-- C1: every pattern produced by `convertToPattern` satisfies the
palette-coverage invariant (distinct keys, every stitch's color id a key,
stored counts equal to per-id stitch counts, counts summing to
`stitches.length`), and `limitColors`, `mergeColors` and `applyShapeMask`
preserve it when applied to a pattern already satisfying it. -/
theorem c1_palette_coverage (palette : List DMC) (img : ImageData)
    (gridSize : Nat) (opts : Options) (hw : 1 ≤ img.width) (p : Pattern)
    (k : Int) (tol : ℚ) (shape : Shape) (hp : INV p) :
    INV (convertToPattern palette img gridSize opts) ∧ INV (limitColors p k) ∧
    INV (mergeColors p tol) ∧ INV (applyShapeMask p shape) :=
  ⟨convertToPattern_INV palette img gridSize opts, limitColors_INV p k hp,
    mergeColors_INV p tol hp, applyShapeMask_INV p shape hp⟩

/-- Witness for C1 at concrete inputs. -/
theorem c1_palette_coverage_witness :
    (1 ≤ imgW.width ∧ INV pW) ∧
    (INV (convertToPattern palW imgW 2 optsW) ∧ INV (limitColors pW 1) ∧
      INV (mergeColors pW 100) ∧ INV (applyShapeMask pW Shape.rectangle)) :=
  ⟨⟨by decide, by decide⟩,
    c1_palette_coverage palW imgW 2 optsW (by decide) pW 1 100 Shape.rectangle
      (by decide)⟩

/-- C6: for `k ≥ 1`, `limitColors` leaves at most `k` distinct keys in
`colorCounts` and does not change the number of stitches. -/
theorem c6_limitColors_bound (p : Pattern) (k : Int) (hk : 1 ≤ k)
    (hnd : (ccKeys p.colorCounts).Nodup) :
    ((limitColors p k).colorCounts.length : Int) ≤ k ∧
    (limitColors p k).stitches.length = p.stitches.length := by
  simp only [limitColors]
  split_ifs with h1 h2
  · exact absurd h1 (by omega)
  · constructor
    · have hlen := (sortByCountDesc_perm p.colorCounts).length_eq
      omega
    · rfl
  · constructor
    · rw [foldl_incrKey]
      simp only [List.length_map, List.length_take]
      omega
    · simp

/-- Witness for C6 at concrete inputs. -/
theorem c6_limitColors_bound_witness :
    ((1 : Int) ≤ 1 ∧ (ccKeys pW.colorCounts).Nodup) ∧
    (((limitColors pW 1).colorCounts.length : Int) ≤ 1 ∧
      (limitColors pW 1).stitches.length = pW.stitches.length) :=
  ⟨⟨by decide, by decide⟩, c6_limitColors_bound pW 1 (by decide) (by decide)⟩

/-- C9: `findClosestDMC` returns a palette entry minimizing the weighted
squared distance `dr²·0.30 + dg²·0.59 + db²·0.11`; when several entries
attain the minimum, the first in palette iteration order is returned
(every entry before the result is strictly farther). -/
theorem c9_findClosestDMC_first_min (palette : List DMC) (r g b : Nat)
    (hne : palette ≠ []) :
    findClosestDMC palette r g b ∈ palette ∧
    (∀ d ∈ palette,
      wdistSq (dmcRGB (findClosestDMC palette r g b)) ⟨(r : Int), (g : Int), (b : Int)⟩
        ≤ wdistSq (dmcRGB d) ⟨(r : Int), (g : Int), (b : Int)⟩) ∧
    ∃ l1 l2, palette = l1 ++ findClosestDMC palette r g b :: l2 ∧
      ∀ d ∈ l1,
        wdistSq (dmcRGB (findClosestDMC palette r g b)) ⟨(r : Int), (g : Int), (b : Int)⟩
          < wdistSq (dmcRGB d) ⟨(r : Int), (g : Int), (b : Int)⟩ := by
  have h := scan_first_min
    (fun dmc => wdistSq (dmcRGB dmc) ⟨(r : Int), (g : Int), (b : Int)⟩)
    palette (palette.headD default) hne
  exact h

/-- Witness for C9 at concrete inputs. -/
theorem c9_findClosestDMC_first_min_witness :
    palW ≠ [] ∧ findClosestDMC palW 200 20 60 ∈ palW :=
  ⟨by decide, (c9_findClosestDMC_first_min palW 200 20 60 (by decide)).1⟩

/-- C10: `limitColors` and `mergeColors` preserve the stitch sequence's
length and per-position coordinates, and leave `width` and `height`
unchanged; only colors and `colorCounts` may differ. -/
theorem c10_post_frame (p : Pattern) (k : Int) (tol : ℚ)
    (hcov : ∀ s ∈ p.stitches, s.color.id ∈ ccKeys p.colorCounts) :
    ((limitColors p k).stitches.map (fun s => (s.x, s.y))
        = p.stitches.map (fun s => (s.x, s.y))) ∧
    (limitColors p k).width = p.width ∧
    (limitColors p k).height = p.height ∧
    ((mergeColors p tol).stitches.map (fun s => (s.x, s.y))
        = p.stitches.map (fun s => (s.x, s.y))) ∧
    (mergeColors p tol).width = p.width ∧
    (mergeColors p tol).height = p.height := by
  refine ⟨?_, ?_, ?_, ?_, ?_, ?_⟩
  · simp only [limitColors]
    split_ifs with h1 h2
    · rfl
    · rfl
    · rw [List.map_map]
      apply List.map_congr_left
      intro s _
      simp only [Function.comp_apply]
      unfold limitRemap
      split
      · rfl
      · rfl
  · simp only [limitColors]
    split_ifs <;> rfl
  · simp only [limitColors]
    split_ifs <;> rfl
  · simp only [mergeColors]
    split_ifs with h1 h2
    · rfl
    · rfl
    · rw [List.map_map]
      apply List.map_congr_left
      intro s _
      simp only [Function.comp_apply]
      unfold mergeRemap
      split
      · rfl
      · rfl
  · simp only [mergeColors]
    split_ifs <;> rfl
  · simp only [mergeColors]
    split_ifs <;> rfl

/-- Witness for C10 at concrete inputs. -/
theorem c10_post_frame_witness :
    (∀ s ∈ pW.stitches, s.color.id ∈ ccKeys pW.colorCounts) ∧
    ((limitColors pW 1).stitches.map (fun s => (s.x, s.y))
      = pW.stitches.map (fun s => (s.x, s.y))) :=
  ⟨by decide, (c10_post_frame pW 1 100 (by decide)).1⟩

/-- C7: with the same buffer, grid width and other options (dithering
included), enabling `removeBackground` with a background color never
produces more stitches than the run with it disabled: background skipping
never touches the alpha channel that gates stitch creation. -/
theorem c7_removeBackground_monotone (palette : List DMC) (img : ImageData)
    (gridSize : Nat) (o : Options) (bg : RGB) (hw : 1 ≤ img.width) :
    (convertToPattern palette img gridSize
      { o with removeBackground := true, backgroundColor := some bg }).stitches.length
    ≤ (convertToPattern palette img gridSize
      { o with removeBackground := false, backgroundColor := some bg }).stitches.length := by
  simp only [convertToPattern, convertToPatternFull]
  rw [processChunk_fst, processChunk_fst]
  simp only [processRows]
  have hinit : AlphaSame img img.data := fun m hm => rfl
  refine le_trans (foldl_stepCell_stitch_le _ _ _ _ _ _ _ hinit) ?_
  rw [foldl_stepCell_stitch_eq _ _ _ _ _ _ _ rfl hinit]

/-- Witness for C7 at concrete inputs. -/
theorem c7_removeBackground_monotone_witness :
    1 ≤ imgW.width ∧
    (convertToPattern palW imgW 2 optsOnW).stitches.length
      ≤ (convertToPattern palW imgW 2 optsOffW).stitches.length :=
  ⟨by decide,
    c7_removeBackground_monotone palW imgW 2 optsW bgW (by decide)⟩

/-- C8: over a grid with at least one cell, the progress reports form a
non-empty, monotonically non-decreasing sequence of integers bounded by
100 whose final value is exactly 100. -/
theorem c8_progress (palette : List DMC) (img : ImageData) (gridSize : Nat)
    (opts : Options) (hgw : 1 ≤ gridSize)
    (hgh : 1 ≤ gridHeightOf img gridSize) :
    progressReports palette img gridSize opts ≠ [] ∧
    List.Chain' (· ≤ ·) (progressReports palette img gridSize opts) ∧
    (progressReports palette img gridSize opts).getLast? = some 100 ∧
    ∀ r ∈ progressReports palette img gridSize opts, r ≤ 100 := by
  have h := processChunk_reports palette img opts gridSize
    (gridHeightOf img gridSize) ((img.width : ℚ) / gridSize)
    ((img.height : ℚ) / (gridHeightOf img gridSize)) hgw hgh
    (gridHeightOf img gridSize - 0) 0 ⟨img.data, [], [], 0, 0⟩ rfl (by omega)
    (by simp)
  obtain ⟨hne, hhead, hchain, hlast, hcap⟩ := h
  simp only [progressReports, convertToPatternFull]
  exact ⟨hne, hchain, hlast, hcap⟩

/-- Witness for C8 at concrete inputs. -/
theorem c8_progress_witness :
    (1 ≤ 2 ∧ 1 ≤ gridHeightOf imgW 2) ∧
    (progressReports palW imgW 2 optsW ≠ [] ∧
      List.Chain' (· ≤ ·) (progressReports palW imgW 2 optsW) ∧
      (progressReports palW imgW 2 optsW).getLast? = some 100 ∧
      ∀ r ∈ progressReports palW imgW 2 optsW, r ≤ 100) :=
  ⟨⟨by decide, by norm_num [gridHeightOf, jsRound, imgW]⟩,
    c8_progress palW imgW 2 optsW (by decide)
      (by norm_num [gridHeightOf, jsRound, imgW])⟩

/-- A zero-height buffer yields grid height 0 and one degenerate chunk, so
the conversion resolves normally with an empty pattern. -/
theorem convertToPattern_height_zero (palette : List DMC) (img : ImageData)
    (gridSize : Nat) (opts : Options) (h0 : img.height = 0) (hw : 1 ≤ img.width) :
    convertToPattern palette img gridSize opts = ⟨[], gridSize, 0, []⟩ := by
  have hgh : gridHeightOf img gridSize = 0 := by
    unfold gridHeightOf jsRound
    rw [h0]
    norm_num
  simp only [convertToPattern, convertToPatternFull, hgh]
  rw [processChunk]
  rw [dif_neg (by omega : ¬ min (0 + 5) 0 < 0)]
  simp [processRows, cellsOfRows]

/-- C2 (amended): `convertToPattern` performs no zero-dimension validation;
for a zero-height buffer it resolves normally with an empty stitch list,
height 0, and empty `colorCounts` — a silent fallback, not an invalid-input
signal.  (For a zero-width buffer the source's chunk loop never terminates;
that case lies outside the rational-arithmetic model.) -/
theorem c2_zero_height_silent (palette : List DMC) (img : ImageData)
    (gridSize : Nat) (opts : Options) (h0 : img.height = 0) (hw : 1 ≤ img.width) :
    (convertToPattern palette img gridSize opts).stitches = [] ∧
    (convertToPattern palette img gridSize opts).height = 0 ∧
    (convertToPattern palette img gridSize opts).colorCounts = [] := by
  rw [convertToPattern_height_zero palette img gridSize opts h0 hw]
  exact ⟨rfl, rfl, rfl⟩

/-- Witness for the amended C2 at a concrete empty buffer. -/
theorem c2_zero_height_silent_witness :
    (⟨[], 5, 0⟩ : ImageData).height = 0 ∧ 1 ≤ (⟨[], 5, 0⟩ : ImageData).width ∧
    ((convertToPattern palW ⟨[], 5, 0⟩ 10 optsW).stitches = [] ∧
      (convertToPattern palW ⟨[], 5, 0⟩ 10 optsW).height = 0 ∧
      (convertToPattern palW ⟨[], 5, 0⟩ 10 optsW).colorCounts = []) :=
  ⟨rfl, by decide, c2_zero_height_silent palW ⟨[], 5, 0⟩ 10 optsW rfl (by decide)⟩

/-- Counterexample to C2 as stated: on the 5-by-0 buffer the conversion
does not fail fast — it resolves a concrete (empty) pattern. -/
theorem c2_counterexample :
    convertToPattern palW ⟨[], 5, 0⟩ 10 optsW = ⟨[], 10, 0, []⟩ :=
  convertToPattern_height_zero palW ⟨[], 5, 0⟩ 10 optsW rfl (by decide)

/-- Closed form of the derived grid height over the naturals. -/
theorem gridHeightOf_eq_div (img : ImageData) (gridSize : Nat)
    (hw : 1 ≤ img.width) :
    gridHeightOf img gridSize
      = (2 * gridSize * img.height + img.width) / (2 * img.width) := by
  unfold gridHeightOf jsRound
  have hw0 : (img.width : ℚ) ≠ 0 := by
    have : (0 : ℚ) < img.width := by exact_mod_cast hw
    exact ne_of_gt this
  have hshape : (gridSize : ℚ) * ((img.height : ℚ) / img.width) + 1 / 2
      = ((2 * gridSize * img.height + img.width : Nat) : ℚ)
        / ((2 * img.width : Nat) : ℚ) := by
    push_cast
    field_simp
    ring
  rw [hshape, Int.floor_toNat, Nat.floor_div_nat, Nat.floor_natCast]

/-- C3 (amended): the grid height used by `convertToPattern` and reported
in the result's `height` field equals `round(gridSize × bufferHeight /
bufferWidth)` — in closed form `(2·gridSize·h + w) / (2w)` over the
naturals — with NO minimum of 1: the rounded value 0 is returned as-is. -/
theorem c3_gridHeight_formula (palette : List DMC) (img : ImageData)
    (gridSize : Nat) (opts : Options) (hw : 1 ≤ img.width) :
    (convertToPattern palette img gridSize opts).height
      = (2 * gridSize * img.height + img.width) / (2 * img.width) := by
  have hh : (convertToPattern palette img gridSize opts).height
      = gridHeightOf img gridSize := rfl
  rw [hh, gridHeightOf_eq_div img gridSize hw]

/-- Witness for the amended C3 at concrete inputs. -/
theorem c3_gridHeight_formula_witness :
    1 ≤ imgW.width ∧
    (convertToPattern palW imgW 2 optsW).height
      = (2 * 2 * imgW.height + imgW.width) / (2 * imgW.width) :=
  ⟨by decide, c3_gridHeight_formula palW imgW 2 optsW (by decide)⟩

/-- Counterexample to C3 as stated: for a 100-by-1 buffer and grid width
20 the rounded value is 0 and no minimum of 1 is enforced — the returned
height is 0. -/
theorem c3_counterexample :
    (convertToPattern palW ⟨List.replicate 400 0, 100, 1⟩ 20 optsW).height = 0 := by
  show gridHeightOf ⟨List.replicate 400 0, 100, 1⟩ 20 = 0
  norm_num [gridHeightOf, jsRound]

/-- A stitch whose heart-mask angle is exactly 0 (positive horizontal axis,
the `Math.log(0) = -Infinity`, `0 * -Infinity = NaN` case of the source) is
never kept. -/
theorem heart_not_keep (w h : Nat) (s : Stitch)
    (ht : jsAtan2 (((s.y : ℝ) - (h : ℝ) / 2) / ((h : ℝ) / 2))
      (((s.x : ℝ) - (w : ℝ) / 2) / ((w : ℝ) / 2)) = 0) :
    ¬ keepStitch Shape.heart w h s := by
  intro hk
  simp only [keepStitch] at hk
  rw [if_pos ht] at hk
  exact hk

theorem jsAtan2_pos_axis :
    jsAtan2 ((((2 : Nat) : ℝ) - ((4 : Nat) : ℝ) / 2) / (((4 : Nat) : ℝ) / 2))
      ((((3 : Nat) : ℝ) - ((4 : Nat) : ℝ) / 2) / (((4 : Nat) : ℝ) / 2)) = 0 := by
  have h1 : (((2 : Nat) : ℝ) - ((4 : Nat) : ℝ) / 2) / (((4 : Nat) : ℝ) / 2) = 0 := by
    push_cast
    norm_num
  have h2 : (((3 : Nat) : ℝ) - ((4 : Nat) : ℝ) / 2) / (((4 : Nat) : ℝ) / 2) = 1 / 2 := by
    push_cast
    norm_num
  rw [h1, h2]
  unfold jsAtan2
  rw [if_pos (by norm_num : (0 : ℝ) < 1 / 2)]
  norm_num

/-- C4 (amended): the heart predicate of `applyShapeMask` has NO epsilon
guard: when `t = atan2(dy, dx)` is exactly 0 the source compares against
`NaN` and the stitch is dropped no matter how small `r` is — including
stitches on the positive horizontal axis with `r ≤ 0.8`; for `t ≠ 0` the
predicate is the documented `r ≤ 0.8 + |sin(t)·cos(t)·ln|t||/2.5|`. -/
theorem c4_heart_no_guard (p : Pattern) (s : Stitch) (hs : s ∈ p.stitches)
    (dx dy : ℝ)
    (hdx : dx = ((s.x : ℝ) - (p.width : ℝ) / 2) / ((p.width : ℝ) / 2))
    (hdy : dy = ((s.y : ℝ) - (p.height : ℝ) / 2) / ((p.height : ℝ) / 2)) :
    (jsAtan2 dy dx = 0 → s ∉ (applyShapeMask p Shape.heart).stitches) ∧
    (jsAtan2 dy dx ≠ 0 →
      (s ∈ (applyShapeMask p Shape.heart).stitches ↔
        Real.sqrt (dx * dx + dy * dy) ≤
          0.8 + |Real.sin (jsAtan2 dy dx) * Real.cos (jsAtan2 dy dx) *
            Real.log |jsAtan2 dy dx| / 2.5|)) := by
  subst hdx hdy
  have hmask : (applyShapeMask p Shape.heart).stitches
      = filterP (keepStitch Shape.heart p.width p.height) p.stitches := rfl
  constructor
  · intro ht hmem
    rw [hmask, mem_filterP] at hmem
    exact heart_not_keep p.width p.height s ht hmem.2
  · intro ht
    rw [hmask, mem_filterP]
    have hkeq : keepStitch Shape.heart p.width p.height s =
        (if jsAtan2 (((s.y : ℝ) - (p.height : ℝ) / 2) / ((p.height : ℝ) / 2))
            (((s.x : ℝ) - (p.width : ℝ) / 2) / ((p.width : ℝ) / 2)) = 0 then False
          else Real.sqrt
              ((((s.x : ℝ) - (p.width : ℝ) / 2) / ((p.width : ℝ) / 2)) *
                (((s.x : ℝ) - (p.width : ℝ) / 2) / ((p.width : ℝ) / 2)) +
              (((s.y : ℝ) - (p.height : ℝ) / 2) / ((p.height : ℝ) / 2)) *
                (((s.y : ℝ) - (p.height : ℝ) / 2) / ((p.height : ℝ) / 2))) ≤
            0.8 + |Real.sin (jsAtan2
                (((s.y : ℝ) - (p.height : ℝ) / 2) / ((p.height : ℝ) / 2))
                (((s.x : ℝ) - (p.width : ℝ) / 2) / ((p.width : ℝ) / 2))) *
              Real.cos (jsAtan2
                (((s.y : ℝ) - (p.height : ℝ) / 2) / ((p.height : ℝ) / 2))
                (((s.x : ℝ) - (p.width : ℝ) / 2) / ((p.width : ℝ) / 2))) *
              Real.log |jsAtan2
                (((s.y : ℝ) - (p.height : ℝ) / 2) / ((p.height : ℝ) / 2))
                (((s.x : ℝ) - (p.width : ℝ) / 2) / ((p.width : ℝ) / 2))| / 2.5|) := rfl
    rw [hkeq, if_neg ht]
    exact and_iff_right hs

/-- Witness for the amended C4: the concrete stitch at (3, 2) of the 4-by-4
pattern lies on the positive horizontal axis (t = 0) and is dropped. -/
theorem c4_heart_no_guard_witness :
    (⟨3, 2, dBlack⟩ : Stitch) ∈ pH.stitches ∧
    (⟨3, 2, dBlack⟩ : Stitch) ∉ (applyShapeMask pH Shape.heart).stitches :=
  ⟨by decide,
    (c4_heart_no_guard pH ⟨3, 2, dBlack⟩ (by decide) _ _ rfl rfl).1 jsAtan2_pos_axis⟩

/-- Counterexample to C4 as stated: the stitch at (3, 2) of the 4-by-4
pattern has r = 1/2 ≤ 0.8 and t = 0, yet `applyShapeMask` with the heart
shape drops it — the masked pattern is empty, so no epsilon guard exists. -/
theorem c4_counterexample : (applyShapeMask pH Shape.heart).stitches = [] := by
  have hnk : ¬ keepStitch Shape.heart 4 4 (⟨3, 2, dBlack⟩ : Stitch) := by
    apply heart_not_keep
    exact jsAtan2_pos_axis
  show filterP (keepStitch Shape.heart 4 4) [⟨3, 2, dBlack⟩] = []
  rw [filterP, if_neg hnk, filterP]

theorem lookup_eq_some_of_nodup {β : Type} (l : List (String × β)) (a : String)
    (b : β) (hnd : (l.map (fun e => e.1)).Nodup) (hmem : (a, b) ∈ l) :
    List.lookup a l = some b := by
  induction l with
  | nil => exact absurd hmem (List.not_mem_nil _)
  | cons p l ih =>
    simp only [List.map_cons, List.nodup_cons] at hnd
    rw [List.lookup]
    rcases List.mem_cons.mp hmem with h1 | h2
    · subst h1
      simp
    · have hne : (a == p.1) = false := by
        rw [beq_eq_false_iff_ne]
        intro hh
        exact hnd.1 (List.mem_map.mpr ⟨(a, b), h2, by simp [hh]⟩)
      simp only [hne]
      exact ih hnd.2 h2

theorem mergeMapping_keys (groups : List ColorGroup) :
    (mergeMapping groups).map (fun e => e.1)
      = (groupsColors groups).map (fun e => e.1.id) := by
  unfold mergeMapping groupsColors
  rw [List.map_flatMap, List.map_flatMap]
  congr 1
  funext g
  rw [List.map_map]
  rfl

/-- Within a cluster built by `mergeColors`, looking up any member color's
id yields the cluster's max-count representative. -/
theorem lookup_mergeMapping (p : Pattern) (tol : ℚ)
    (hnd : (ccKeys p.colorCounts).Nodup) (g : ColorGroup)
    (hg : g ∈ mergeGroups p tol) (c : DMC × Nat) (hc : c ∈ g.colors) :
    List.lookup c.1.id (mergeMapping (mergeGroups p tol)) = some (groupRep g) := by
  apply lookup_eq_some_of_nodup
  · rw [mergeMapping_keys]
    exact ((mergeGroups_perm p tol).map (fun e : DMC × Nat => e.1.id)).nodup_iff.mpr hnd
  · unfold mergeMapping
    apply List.mem_flatMap.mpr
    exact ⟨g, hg, List.mem_map.mpr ⟨c, hc, rfl⟩⟩

/-- C5: in `mergeColors`, clustering is greedy first-fit with the seed
color as comparison anchor, but every stitch whose color belongs to a
cluster is remapped to the cluster member of highest original count (first
such member on ties), not necessarily the seed.  In particular, on three
distinct colors with the first two mutually within tolerance and the third
isolated, exactly 2 colors remain and the merged pair's representative is
whichever of the two had the strictly higher count. -/
theorem c5_mergeColors_max_count_rep (p : Pattern) (tol : ℚ)
    (hnd : (ccKeys p.colorCounts).Nodup) (htol : 0 < tol)
    (hlen : 1 < p.colorCounts.length) :
    (∀ g ∈ mergeGroups p tol, ∀ c ∈ g.colors, ∀ i : Nat,
      ∀ hi : i < p.stitches.length,
      (p.stitches.get ⟨i, hi⟩).color.id = c.1.id →
      (mergeColors p tol).stitches[i]?
        = some { p.stitches.get ⟨i, hi⟩ with color := (groupRep g).1 }) ∧
    (∀ (d1 d2 d3 : DMC) (n1 n2 n3 : Nat),
      p.colorCounts = [(d1, n1), (d2, n2), (d3, n3)] →
      isSimilarColor (dmcRGB d2) (dmcRGB d1) tol = true →
      isSimilarColor (dmcRGB d3) (dmcRGB d1) tol = false →
      n1 ≠ n2 →
      (mergeColors p tol).colorCounts.length = 2 ∧
      mergeGroups p tol
        = [⟨dmcRGB d1, [(d1, n1), (d2, n2)], n1 + n2⟩,
            ⟨dmcRGB d3, [(d3, n3)], n3⟩] ∧
      groupRep ⟨dmcRGB d1, [(d1, n1), (d2, n2)], n1 + n2⟩
        = (if n1 < n2 then (d2, n2) else (d1, n1))) := by
  have h1 : ¬ tol ≤ 0 := not_le.mpr htol
  have h2 : ¬ p.colorCounts.length ≤ 1 := by omega
  constructor
  · intro g hg c hc i hi hid
    simp only [mergeColors, if_neg h1, if_neg h2]
    rw [List.getElem?_map, List.getElem?_eq_getElem hi]
    simp only [Option.map_some']
    unfold mergeRemap
    rw [List.get_eq_getElem] at hid
    rw [hid, lookup_mergeMapping p tol hnd g hg c hc, List.get_eq_getElem]
  · intro d1 d2 d3 n1 n2 n3 hcc hsim hiso hneq
    have hgroups : mergeGroups p tol
        = [⟨dmcRGB d1, [(d1, n1), (d2, n2)], n1 + n2⟩,
            ⟨dmcRGB d3, [(d3, n3)], n3⟩] := by
      unfold mergeGroups
      rw [hcc]
      simp [addColorToGroups, hsim, hiso]
    refine ⟨?_, hgroups, ?_⟩
    · simp only [mergeColors, if_neg h1, if_neg h2]
      rw [foldl_incrKey]
      simp only [List.length_map, hgroups]
      rfl
    · rfl

/-- Witness for C5: on the concrete three-color pattern the merge yields
exactly two colors and the merged pair's representative is the
higher-count member. -/
theorem c5_mergeColors_max_count_rep_witness :
    (mergeColors pM 5).colorCounts.length = 2 ∧
    mergeGroups pM 5
      = [⟨dmcRGB dG1, [(dG1, 3), (dG2, 1)], 3 + 1⟩, ⟨dmcRGB dFar, [(dFar, 2)], 2⟩] ∧
    groupRep ⟨dmcRGB dG1, [(dG1, 3), (dG2, 1)], 3 + 1⟩
      = (if 3 < 1 then (dG2, 1) else (dG1, 3)) :=
  (c5_mergeColors_max_count_rep pM 5 (by decide) (by norm_num)
      (by decide)).2 dG1 dG2 dFar 3 1 2 rfl
    (by
      unfold isSimilarColor wdistSq dmcRGB dG1 dG2
      norm_num)
    (by
      unfold isSimilarColor wdistSq dmcRGB dG1 dFar
      norm_num)
    (by decide)

end CrossStitch
